import Mathlib

/-!
HTML validator (`htmlValidator.cpp`): shallow embedding

The tokenizer `tokenizeHTML`, the tag-shape classifiers (`isTagName`, `isTagOpen`,
`isTagEmpty`, `isTagClose`, `isCharData`, `compareTags`, `validateTag`) and the
stack-matching validator `validateHTML` are embedded as executable Lean functions.

Modelling conventions, fixed once for the whole development:

* a `std::string` is a `List Char` (`Str`); characters are ASCII, `isalpha` / `isdigit`
  are the "C" locale predicates;
* `s[i]` is `readAt s i`: defined for `0 ≤ i ≤ size` (index `size` reads the terminating
  NUL), anything else is a read outside the string and yields `Failure.outOfBounds`;
* `s.substr(pos, n)` is `substr s pos n`: it throws `std::out_of_range` when
  `pos > size` (`Failure.outOfRange`); a count that is negative as an `int` converts
  to a huge `size_t` and therefore selects the rest of the string;
* `int` variables of the classifiers are `Int` (tokens are far shorter than `2^31`);
  the `unsigned int` counters of the tokenizer are `Nat` reduced modulo `2^32`;
* `displayErrorMessage` re-reads the file named by the global `filename`; what it finds
  there is the argument `file : FileView` of every function that can reach it. It ends
  the run with `Failure.report token reason` when its search matches the token inside
  one line, and returns otherwise; the line number and the caret line it prints are not
  part of the model, and the file is taken not to change during one run;
* `tags.top()` on an empty stack, reached at source line 226 when the call of
  `displayErrorMessage` at line 223 returns, is undefined behaviour and yields
  `Failure.outOfBounds` like a read outside a string;
* `while` loops and the recursion of `isTagName` carry an explicit iteration bound;
  running out of it is the separate outcome `Failure.fuel`.
-/

namespace HtmlValidator

/-- A `std::string`. -/
abbrev Str := List Char

/-- Ways in which a run ends without returning a value. -/
inductive Failure where
  /-- `displayErrorMessage(token, reason)` found the token in a line of the file, printed
  `[ERROR] Line n: token reason` and called `exit(-1)`. -/
  | report (token : Str) (reason : Str)
  /-- `displayErrorMessage` could not open the file and called `exit(-1)`. -/
  | cannotOpen
  /-- A read outside a container: `operator[]` applied to an index outside `[0, size]`,
  or `top()` applied to an empty stack (undefined behaviour). -/
  | outOfBounds
  /-- `substr` called with `pos > size` (`std::out_of_range`). -/
  | outOfRange
  /-- The iteration bound of the model was exhausted. -/
  | fuel
  deriving DecidableEq, Repr

/-- Result of a computation of the program. -/
abbrev Res (α : Type) := Except Failure α

instance instDecidableEqRes {α : Type} [DecidableEq α] : DecidableEq (Res α)
  | .ok a, .ok b => if h : a = b then isTrue (by rw [h]) else isFalse (fun e => h (by cases e; rfl))
  | .error a, .error b =>
    if h : a = b then isTrue (by rw [h]) else isFalse (fun e => h (by cases e; rfl))
  | .ok _, .error _ => isFalse (fun e => by cases e)
  | .error _, .ok _ => isFalse (fun e => by cases e)

/-- The expression `s[i]` for a `std::string`. -/
def readAt (s : Str) (i : Int) : Res Char :=
  if i < 0 ∨ (s.length : Int) < i then .error .outOfBounds
  else .ok (s.getD i.toNat (Char.ofNat 0))

/-- The call `s.substr(pos, n)`. -/
def substr (s : Str) (pos n : Int) : Res Str :=
  if pos < 0 ∨ (s.length : Int) < pos then .error .outOfRange
  else if n < 0 then .ok (s.drop pos.toNat)
  else .ok ((s.drop pos.toNat).take n.toNat)

/-- Source line 533: `isDigit`. -/
def isDigit (c : Char) : Bool := c.isDigit

/-- Source line 543: `isAlphabet`. -/
def isAlphabet (c : Char) : Bool := c.isAlpha

/-- Source line 553: `isWordSeparator`. -/
def isWordSeparator (c : Char) : Bool := c == ' ' || c == '\t' || c == '\n'

/-- Source lines 516-523: `isBlank`, true when every character is a space. -/
def isBlank : Str → Bool
  | [] => true
  | c :: rest => if c != ' ' then false else isBlank rest

/-- Width of `unsigned int`. -/
def UINT : Nat := 4294967296

/-- What `displayErrorMessage` finds when it opens the file named by the global
`filename`: `none` when the file cannot be opened, otherwise its lines in order, as
`getline(file, line, '\n')` delivers them (without the newline characters). -/
abbrev FileView := Option (List Str)

/-- Source line 124, `while (getline(file, line, '\n')) contents << line;`: the contents
handed to the tokenizer are the lines of the file, one after the other. -/
def fileContents : List Str → Str
  | [] => []
  | line :: rest => line ++ fileContents rest

/-- The `for` loop of `displayErrorMessage` over the characters of one line (source lines
292-316), at most `fuel` iterations, from the 32-bit cursor `i` with
`problematicTokenIndex = idx`. A character equal to `problematicToken[idx]` advances
`idx`; as soon as `idx` reaches the length of the token the error is printed and the
program exits; at the end of the line the loop returns. -/
def searchLine (line problematicToken errorMsg : Str) : Nat → Nat → Nat → Res Unit
  | 0, i, _ => if i < line.length then .error .fuel else .ok ()
  | fuel + 1, i, idx =>
    if i < line.length then do
      let c ← readAt line i
      let t ← readAt problematicToken idx
      let idx' := if c == t then (idx + 1) % UINT else idx
      if idx' ≥ problematicToken.length then .error (.report problematicToken errorMsg)
      else searchLine line problematicToken errorMsg fuel ((i + 1) % UINT) idx'
    else .ok ()

/-- The `while (getline(...))` loop of `displayErrorMessage` (source lines 278-317): every
line is searched from `i = 0` with `problematicTokenIndex = 0`. The state of the inner
loop is the pair of two 32-bit counters, so a search that has not ended after
`2^64 + 1` iterations never ends. -/
def searchLines (problematicToken errorMsg : Str) : List Str → Res Unit
  | [] => .ok ()
  | line :: rest => do
    searchLine line problematicToken errorMsg (UINT * UINT + 1) 0 0
    searchLines problematicToken errorMsg rest

/-- Source lines 256-322: `displayErrorMessage`. It exits when the file cannot be opened
or when the token is found inside one line, and returns to its caller otherwise. -/
def displayErrorMessage (file : FileView) (problematicToken errorMsg : Str) : Res Unit :=
  match file with
  | none => .error .cannotOpen
  | some lines => searchLines problematicToken errorMsg lines

/-- The array `tags` of `validateTag` (source line 496). -/
def grammarTags : List Str :=
  ["html".toList, "head".toList, "body".toList, "p".toList, "br".toList,
   "li".toList, "h1".toList, "h2".toList, "ul".toList, "ol".toList]

/-- The message passed to `displayErrorMessage` by `validateTag` (source line 503). -/
def unknownTagReason : Str := "is not a valid HTML tag (in the given grammar)".toList

/-- Source lines 493-506: `validateTag`. -/
def validateTag (file : FileView) (tag : Str) : Res Bool :=
  if grammarTags.any (fun t => tag == t) then .ok true
  else do
    displayErrorMessage file ('<' :: (tag ++ ['>'])) unknownTagReason
    return false

/-- Source lines 332-352: `isTagName`; the first argument bounds the recursion depth. -/
def isTagNameAux : Nat → Str → Res Bool
  | 0, _ => .error .fuel
  | fuel + 1, s =>
    if s.length = 1 then do
      let c ← readAt s 0
      if isAlphabet c then return true else return false
    else do
      let last : Int := (s.length : Int) - 1
      let c ← readAt s last
      if isAlphabet c || isDigit c then do
        let sub ← substr s 0 last
        isTagNameAux fuel sub
      else return false

/-- Source lines 332-352: `isTagName`. Every recursive call removes one character,
so `length + 1` calls are enough. -/
def isTagName (s : Str) : Res Bool := isTagNameAux (s.length + 1) s

/-- The loop `while (isWordSeparator(s[start])) start++;`. -/
def skipForward (s : Str) : Nat → Int → Res Int
  | 0, _ => .error .fuel
  | fuel + 1, start => do
    let c ← readAt s start
    if isWordSeparator c then skipForward s fuel (start + 1) else return start

/-- The loop `while (isWordSeparator(s[end])) end--;`. -/
def skipBackward (s : Str) : Nat → Int → Res Int
  | 0, _ => .error .fuel
  | fuel + 1, last => do
    let c ← readAt s last
    if isWordSeparator c then skipBackward s fuel (last - 1) else return last

/-- Source lines 362-386: `isTagOpen`. -/
def isTagOpen (file : FileView) (s : Str) : Res Bool := do
  if s.isEmpty then return false
  let len : Int := s.length
  if (← readAt s 0) != '<' then return false
  if (← readAt s (len - 1)) != '>' then return false
  if (← readAt s (len - 2)) == '/' then return false
  if (← readAt s 1) == '/' then return false
  let start ← skipForward s (s.length + 1) 1
  let last ← skipBackward s (s.length + 1) (len - 1)
  let trimmedTagName ← substr s start (last - start)
  if !(← validateTag file trimmedTagName) then return false
  isTagName trimmedTagName

/-- Source lines 396-417: `isTagEmpty`. -/
def isTagEmpty (file : FileView) (s : Str) : Res Bool := do
  if s.isEmpty then return false
  let len : Int := s.length
  if (← readAt s 0) != '<' then return false
  if (← readAt s (len - 2)) != '/' then return false
  if (← readAt s (len - 1)) != '>' then return false
  let start ← skipForward s (s.length + 1) 1
  let last ← skipBackward s (s.length + 1) (len - 3)
  let trimmedTagName ← substr s start (last - start + 1)
  if !(← validateTag file trimmedTagName) then return false
  isTagName trimmedTagName

/-- Source lines 427-445: `isTagClose`. -/
def isTagClose (s : Str) : Res Bool := do
  let len : Int := s.length
  if (← readAt s 0) != '<' then return false
  if (← readAt s 1) != '/' then return false
  if (← readAt s (len - 1)) != '>' then return false
  if (← readAt s (len - 2)) == '/' then return false
  let start ← skipForward s (s.length + 1) 2
  let last ← skipBackward s (s.length + 1) (len - 2)
  let name ← substr s start (last - start)
  isTagName name

/-- Source lines 455-465: `isCharData`; every iteration of the loop tests `s[0]`. -/
def isCharData (s : Str) : Res Bool := do
  if s.isEmpty then return true
  if (← readAt s 0) == '<' then return false
  return true

/-- Source lines 476-483: `compareTags`. -/
def compareTags (tagOpen tagClose : Str) : Res Bool := do
  let tagOpenName ← substr tagOpen 1 ((tagOpen.length : Int) - 2)
  let tagCloseName ← substr tagClose 2 ((tagClose.length : Int) - 3)
  return tagOpenName == tagCloseName

/-- Condition of source line 179: the content token is appended. `token[0]` is always
inside `[0, size]`; on an empty token it reads the terminating NUL. -/
def keepsContent (token : Str) : Bool :=
  !isBlank token && (decide (token.length > 1) || !isWordSeparator (token.headD (Char.ofNat 0)))

/-- Local state of `tokenizeHTML`: the cursor, the running counter, the output vector. -/
structure TokState where
  i : Nat
  tokenCount : Nat
  tokens : List Str
  deriving DecidableEq, Repr

/-- One iteration of the loop of `tokenizeHTML` (source lines 158-191). -/
def tokenizeStep (s : Str) (st : TokState) : Res TokState := do
  let c ← readAt s st.i
  if c == '>' then do
    let token ← substr s (((st.i + UINT - st.tokenCount) % UINT : Nat) : Int)
      (((st.tokenCount + 1) % UINT : Nat) : Int)
    return { i := (st.i + 1) % UINT, tokenCount := (0 + 1) % UINT,
             tokens := st.tokens ++ [token] }
  else if c == '<' && decide (st.i > 0) then do
    let token ← substr s ((((st.i + UINT - st.tokenCount) % UINT + 1) % UINT : Nat) : Int)
      (((st.tokenCount + UINT - 1) % UINT : Nat) : Int)
    let tokens := if keepsContent token then st.tokens ++ [token] else st.tokens
    return { i := (st.i + 1) % UINT, tokenCount := (0 + 1) % UINT, tokens := tokens }
  else
    return { i := (st.i + 1) % UINT, tokenCount := (st.tokenCount + 1) % UINT,
             tokens := st.tokens }

/-- The loop `while (i < s.length())` of `tokenizeHTML`, at most `fuel` iterations. -/
def tokenizeLoop (s : Str) : Nat → TokState → Res TokState
  | 0, st => if st.i < s.length then .error .fuel else .ok st
  | fuel + 1, st =>
    if st.i < s.length then do
      let st' ← tokenizeStep s st
      tokenizeLoop s fuel st'
    else .ok st

/-- Source lines 152-195: `tokenizeHTML`; the result is the vector `tokens` after the
call. On a text shorter than 2^32 characters the cursor grows by one per iteration, so
`length` iterations are enough; on a longer text the 32-bit cursor wraps around before it
reaches the length (`tokenizeLoop_never_returns`). -/
def tokenizeHTML (s : Str) (tokens : List Str) : Res (List Str) := do
  let st ← tokenizeLoop s s.length { i := 0, tokenCount := 0, tokens := tokens }
  return st.tokens

/-- The loop of `validateHTML` (source lines 211-237) over the remaining tokens, with
the stack `tags` (top first); the result is the stack after the last token. -/
def validateLoop (file : FileView) : List Str → List Str → Res (List Str)
  | [], tags => .ok tags
  | currentToken :: rest, tags => do
    if (← isTagOpen file currentToken) then
      validateLoop file rest (currentToken :: tags)
    else if (← isTagClose currentToken) then
      match tags with
      | [] => do
        displayErrorMessage file currentToken "no open tags left to close".toList
        .error .outOfBounds
      | tagOpen :: tags' => do
        if !(← compareTags tagOpen currentToken) then
          displayErrorMessage file currentToken
            ("no matching opening tag. Should close ".toList ++ tagOpen)
        validateLoop file rest tags'
    else validateLoop file rest tags

/-- Source lines 206-245: `validateHTML`. -/
def validateHTML (file : FileView) (tokens : List Str) : Res Bool := do
  let tags ← validateLoop file tokens []
  match tags with
  | [] => return true
  | top :: _ => do
    displayErrorMessage file top "no matching closing tag.".toList
    return false

/-- Source lines 130-136 of `validate`: the file contents are tokenized into a fresh
vector and the tokens are validated. -/
def validateContents (file : FileView) (contents : Str) : Res Bool := do
  let tokens ← tokenizeHTML contents []
  validateHTML file tokens

/-- Source lines 119-136 of `validate` on a file that has been opened, is not empty and is
the same when `displayErrorMessage` reads it again: its lines are joined, tokenized and
validated. -/
def validateFile (lines : List Str) : Res Bool :=
  validateContents (some lines) (fileContents lines)

/-! ## Specification-side notions used to state the properties -/

/-- Specification: a text without its leading and trailing word separators. -/
def trimSeparators (s : Str) : Str :=
  ((s.dropWhile isWordSeparator).reverse.dropWhile isWordSeparator).reverse

/-- Specification: the name of an open token `<...>`, the trimmed text between its
delimiters. -/
def openTagName (t : Str) : Str := trimSeparators (t.drop 1).dropLast

/-- Specification: the name of a close token `</...>`, the trimmed text between its
delimiters. -/
def closeTagName (t : Str) : Str := trimSeparators (t.drop 2).dropLast

/-- Specification: a tag string, `<` then characters other than `<` and `>` then `>`. -/
def IsTagString (t : Str) : Prop :=
  ∃ body : Str, t = '<' :: (body ++ ['>']) ∧ ∀ x ∈ body, x ≠ '<' ∧ x ≠ '>'

/-- Specification: a run of characters other than `<` and `>`. -/
def IsContentRun (c : Str) : Prop := ∀ x ∈ c, x ≠ '<' ∧ x ≠ '>'

/-- Specification: the text `c1 t2 c2 t3 ... tn` made of the (content, tag) pairs that
follow the first tag. -/
def segmentsText : List (Str × Str) → Str
  | [] => []
  | (c, t) :: rest => c ++ (t ++ segmentsText rest)

/-- Specification: the tokens of the (content, tag) pairs in document order: the content
unless it is dropped by the condition of source line 179, then the tag. -/
def segmentsTokens : List (Str × Str) → List Str
  | [] => []
  | (c, t) :: rest => (if keepsContent c then [c] else []) ++ (t :: segmentsTokens rest)

/-- Summary of the loop of `tokenizeHTML` by recursion on the characters still to be
read; `cur` is the text read since the last boundary (the last `tokenCount` characters
before the cursor). Used only in proofs, see `tokenizeHTML_eq_scan`. -/
def scan : Str → Str → List Str → List Str
  | [], _, toks => toks
  | c :: rest, cur, toks =>
    if c = '>' then scan rest [c] (toks ++ [cur ++ [c]])
    else if c = '<' ∧ cur ≠ [] then
      scan rest [c] (if keepsContent cur.tail then toks ++ [cur.tail] else toks)
    else scan rest (cur ++ [c]) toks

/-- Specification: a token the validator passes over by the wording of the
specification, a content token (no `<` and no `>`) or an empty tag of the vocabulary. -/
def isPassedOver (file : FileView) (x : Str) : Bool :=
  x.all (fun c => c != '<' && c != '>') || decide (isTagEmpty file x = .ok true)

/-- The local state of `tokenizeHTML` at the start of iteration number `k` of its loop,
that is after `k` executions of the loop body (source lines 158-191), when the call
started with the output vector `tokens`. -/
def tokenizeStateAfter (s : Str) (tokens : List Str) : Nat → Res TokState
  | 0 => .ok { i := 0, tokenCount := 0, tokens := tokens }
  | k + 1 => do
    let st ← tokenizeStateAfter s tokens k
    tokenizeStep s st

/-- A result that is not a report of `displayErrorMessage`. -/
def NoReport {α : Type} (r : Res α) : Prop :=
  ∀ token reason, r ≠ .error (.report token reason)

/-- The token can be read off one line of the file, which is what the search of
`displayErrorMessage` looks for: the file can be opened, each of its lines is shorter than
2^32 characters, and the characters of the token occur, in order, within one line. -/
def FoundInOneLine (file : FileView) (token : Str) : Prop :=
  ∃ lines, file = some lines ∧ (∀ l ∈ lines, l.length < UINT) ∧
    ∃ l ∈ lines, token.Sublist l

variable {file : FileView}

/-! ## Reading characters and substrings -/

theorem readAt_nat (s : Str) (i : Nat) (h : i ≤ s.length) :
    readAt s (i : Int) = .ok (s.getD i (Char.ofNat 0)) := by
  unfold readAt
  have h1 : ¬ ((i : Int) < 0 ∨ (s.length : Int) < (i : Int)) := by omega
  rw [if_neg h1, Int.toNat_ofNat]

theorem readAt_append_right (a b : Str) :
    readAt (a ++ b) (a.length : Int) = .ok (b.headD (Char.ofNat 0)) := by
  rw [readAt_nat _ _ (by simp)]
  cases b with
  | nil => simp [List.getD]
  | cons x t =>
    have : (a ++ x :: t)[a.length]? = some x := by
      rw [List.getElem?_append_right (Nat.le_refl _)]; simp
    simp [List.getD, this]

theorem substr_nat (s : Str) (pos n : Nat) (h : pos ≤ s.length) :
    substr s (pos : Int) (n : Int) = .ok ((s.drop pos).take n) := by
  unfold substr
  have h1 : ¬ ((pos : Int) < 0 ∨ (s.length : Int) < (pos : Int)) := by omega
  have h2 : ¬ ((n : Int) < 0) := by omega
  rw [if_neg h1, if_neg h2, Int.toNat_ofNat, Int.toNat_ofNat]

theorem readAt_zero (s : Str) : readAt s 0 = .ok (s.headD (Char.ofNat 0)) := by
  have := readAt_nat s 0 (Nat.zero_le _)
  cases s <;> simpa [List.getD] using this

theorem readAt_one (a : Char) (s : Str) :
    readAt (a :: s) 1 = .ok (s.headD (Char.ofNat 0)) := by
  have := readAt_append_right [a] s
  simpa using this

theorem readAt_last (s : Str) (z : Char) :
    readAt (s ++ [z]) (((s ++ [z]).length : Int) - 1) = .ok z := by
  have h : (((s ++ [z]).length : Int) - 1) = (s.length : Int) := by simp
  rw [h, readAt_append_right]; rfl

theorem readAt_last2 (s : Str) (y z : Char) :
    readAt (s ++ [y, z]) (((s ++ [y, z]).length : Int) - 2) = .ok y := by
  have h : (((s ++ [y, z]).length : Int) - 2) = (s.length : Int) := by
    simp
  rw [h, readAt_append_right]; rfl

theorem drop_length_takeWhile (p : Char → Bool) (s : Str) :
    s.drop (s.takeWhile p).length = s.dropWhile p := by
  induction s with
  | nil => rfl
  | cons a t ih =>
    by_cases h : p a = true
    · simp [List.takeWhile, List.dropWhile, h, ih]
    · simp [List.takeWhile, List.dropWhile, h]

theorem headD_dropWhile_separator (s : Str) (d : Char) (hd : isWordSeparator d = false) :
    isWordSeparator ((s.dropWhile isWordSeparator ++ [d]).headD (Char.ofNat 0)) = false := by
  induction s with
  | nil => simpa using hd
  | cons a t ih =>
    by_cases h : isWordSeparator a = true
    · simpa [List.dropWhile, h] using ih
    · simp [List.dropWhile, h]

/-! ## The search of `displayErrorMessage` -/

theorem drop_eq_getD_cons (s : Str) (i : Nat) (h : i < s.length) :
    s.drop i = s.getD i (Char.ofNat 0) :: s.drop (i + 1) := by
  rw [List.drop_eq_getElem_cons h]
  simp [List.getD, List.getElem?_eq_getElem h]

theorem searchLine_step (line tok msg : Str) (fuel i idx : Nat) (hi : i < line.length)
    (hline : line.length < UINT) (hidx : idx ≤ tok.length) :
    searchLine line tok msg (fuel + 1) i idx =
      if (if (line.getD i (Char.ofNat 0) == tok.getD idx (Char.ofNat 0)) = true
          then (idx + 1) % UINT else idx) ≥ tok.length
      then .error (.report tok msg)
      else searchLine line tok msg fuel (i + 1)
        (if (line.getD i (Char.ofNat 0) == tok.getD idx (Char.ofNat 0)) = true
          then (idx + 1) % UINT else idx) := by
  have hmod : (i + 1) % UINT = i + 1 := Nat.mod_eq_of_lt (by omega)
  rw [searchLine, if_pos hi, readAt_nat _ _ (Nat.le_of_lt hi), readAt_nat _ _ hidx, hmod]
  rfl

/-- A line shorter than 2^32 characters is searched to its end or to a match. -/
theorem searchLine_cases (line tok msg : Str) (hline : line.length < UINT) :
    ∀ fuel i idx, i ≤ line.length → line.length - i ≤ fuel → idx < tok.length →
      searchLine line tok msg fuel i idx = .ok () ∨
        searchLine line tok msg fuel i idx = .error (.report tok msg) := by
  intro fuel
  induction fuel with
  | zero =>
    intro i idx hi hf _
    left
    rw [searchLine, if_neg (by omega)]
  | succ fuel ih =>
    intro i idx hi hf hidx
    by_cases hlt : i < line.length
    · rw [searchLine_step line tok msg fuel i idx hlt hline (Nat.le_of_lt hidx)]
      generalize (if (line.getD i (Char.ofNat 0) == tok.getD idx (Char.ofNat 0)) = true
        then (idx + 1) % UINT else idx) = idx1
      by_cases hge : idx1 ≥ tok.length
      · right; rw [if_pos hge]
      · rw [if_neg hge]
        exact ih (i + 1) idx1 hlt (by omega) (by omega)
    · left
      rw [searchLine, if_neg hlt]

/-- The search is greedy and complete: when the characters of the token that are still to
be matched occur, in order, in the rest of a line shorter than 2^32 characters, the
search ends with the report. -/
theorem searchLine_found (line tok msg : Str) (hline : line.length < UINT) :
    ∀ fuel i idx, i ≤ line.length → line.length - i ≤ fuel → idx < tok.length → idx ≤ i →
      (tok.drop idx).Sublist (line.drop i) →
      searchLine line tok msg fuel i idx = .error (.report tok msg) := by
  intro fuel
  induction fuel with
  | zero =>
    intro i idx hi hf hidx _ hsub
    exfalso
    have h1 : line.drop i = [] := List.drop_eq_nil_of_le (by omega)
    rw [h1, drop_eq_getD_cons tok idx hidx] at hsub
    cases hsub
  | succ fuel ih =>
    intro i idx hi hf hidx hle hsub
    have hlt : i < line.length := by
      by_contra hcon
      have h1 : line.drop i = [] := List.drop_eq_nil_of_le (by omega)
      rw [h1, drop_eq_getD_cons tok idx hidx] at hsub
      cases hsub
    rw [searchLine_step line tok msg fuel i idx hlt hline (Nat.le_of_lt hidx)]
    rw [drop_eq_getD_cons tok idx hidx, drop_eq_getD_cons line i hlt] at hsub
    by_cases hc : (line.getD i (Char.ofNat 0) == tok.getD idx (Char.ofNat 0)) = true
    · rw [if_pos hc]
      have hmod : (idx + 1) % UINT = idx + 1 := Nat.mod_eq_of_lt (by omega)
      rw [hmod]
      by_cases hge : idx + 1 ≥ tok.length
      · rw [if_pos hge]
      · rw [if_neg hge]
        apply ih (i + 1) (idx + 1) hlt (by omega) (by omega) (by omega)
        generalize line.getD i (Char.ofNat 0) = c at hsub
        generalize tok.getD idx (Char.ofNat 0) = t at hsub
        cases hsub with
        | cons _ h => exact (List.sublist_cons_self _ _).trans h
        | cons₂ _ h => exact h
    · rw [if_neg hc, if_neg (by omega)]
      apply ih (i + 1) idx hlt (by omega) hidx (by omega)
      rw [drop_eq_getD_cons tok idx hidx]
      generalize line.getD i (Char.ofNat 0) = c at hsub hc
      generalize tok.getD idx (Char.ofNat 0) = t at hsub hc
      cases hsub with
      | cons _ h => exact h
      | cons₂ _ h => exact absurd (by simp) hc

/-- A line shorter than 2^32 characters in which the characters still to be matched do
not occur in order is searched to its end without a match. -/
theorem searchLine_not_found (line tok msg : Str) (hline : line.length < UINT) :
    ∀ fuel i idx, i ≤ line.length → line.length - i ≤ fuel → idx < tok.length → idx ≤ i →
      ¬ (tok.drop idx).Sublist (line.drop i) →
      searchLine line tok msg fuel i idx = .ok () := by
  intro fuel
  induction fuel with
  | zero =>
    intro i idx hi hf _ _ _
    rw [searchLine, if_neg (by omega)]
  | succ fuel ih =>
    intro i idx hi hf hidx hle hsub
    by_cases hlt : i < line.length
    · rw [searchLine_step line tok msg fuel i idx hlt hline (Nat.le_of_lt hidx)]
      rw [drop_eq_getD_cons tok idx hidx, drop_eq_getD_cons line i hlt] at hsub
      by_cases hc : (line.getD i (Char.ofNat 0) == tok.getD idx (Char.ofNat 0)) = true
      · have hceq : line.getD i (Char.ofNat 0) = tok.getD idx (Char.ofNat 0) := by
          simpa using hc
        rw [if_pos hc]
        have hmod : (idx + 1) % UINT = idx + 1 := Nat.mod_eq_of_lt (by omega)
        rw [hmod]
        by_cases hge : idx + 1 ≥ tok.length
        · exfalso
          apply hsub
          have h1 : tok.drop (idx + 1) = [] := List.drop_eq_nil_of_le (by omega)
          rw [h1, hceq]
          exact List.Sublist.cons₂ _ (List.nil_sublist _)
        · rw [if_neg hge]
          apply ih (i + 1) (idx + 1) hlt (by omega) (by omega) (by omega)
          intro h
          apply hsub
          rw [hceq]
          exact List.Sublist.cons₂ _ h
      · rw [if_neg hc, if_neg (by omega)]
        apply ih (i + 1) idx hlt (by omega) hidx (by omega)
        rw [drop_eq_getD_cons tok idx hidx]
        intro h
        exact hsub (List.Sublist.cons _ h)
    · rw [searchLine, if_neg hlt]

theorem searchLine_eq (line tok msg : Str) (hline : line.length < UINT) (htok : tok ≠ []) :
    searchLine line tok msg (UINT * UINT + 1) 0 0 =
      if tok.Sublist line then .error (.report tok msg) else .ok () := by
  have hpos : 0 < tok.length := List.length_pos.mpr htok
  have hfuel : line.length - 0 ≤ UINT * UINT + 1 := by
    have : UINT ≤ UINT * UINT := Nat.le_mul_of_pos_left UINT (by decide)
    omega
  by_cases h : tok.Sublist line
  · rw [if_pos h]
    exact searchLine_found line tok msg hline _ 0 0 (Nat.zero_le _) hfuel hpos (Nat.le_refl _) h
  · rw [if_neg h]
    exact searchLine_not_found line tok msg hline _ 0 0 (Nat.zero_le _) hfuel hpos
      (Nat.le_refl _) h

/-- The search of `displayErrorMessage` over a file whose lines are shorter than 2^32
characters: it ends with the report exactly when the characters of the (non-empty) token
occur, in order, within one line. -/
theorem searchLines_eq (tok msg : Str) (htok : tok ≠ []) :
    ∀ lines : List Str, (∀ l ∈ lines, l.length < UINT) →
      searchLines tok msg lines =
        if ∃ l ∈ lines, tok.Sublist l then .error (.report tok msg) else .ok () := by
  intro lines
  induction lines with
  | nil => intro _; simp [searchLines]
  | cons line rest ih =>
    intro hlen
    have hrest := ih (fun l hl => hlen l (List.mem_cons_of_mem _ hl))
    rw [searchLines, searchLine_eq line tok msg (hlen line (List.mem_cons_self _ _)) htok]
    by_cases h : tok.Sublist line
    · rw [if_pos h, if_pos ⟨line, List.mem_cons_self _ _, h⟩]
      rfl
    · rw [if_neg h]
      show searchLines tok msg rest = _
      rw [hrest]
      by_cases h2 : ∃ l ∈ rest, tok.Sublist l
      · obtain ⟨l, hl, hs⟩ := h2
        rw [if_pos ⟨l, hl, hs⟩, if_pos ⟨l, List.mem_cons_of_mem _ hl, hs⟩]
      · rw [if_neg h2, if_neg]
        rintro ⟨l, hl, hs⟩
        rcases List.mem_cons.mp hl with rfl | hl
        · exact h hs
        · exact h2 ⟨l, hl, hs⟩

theorem displayErrorMessage_eq (lines : List Str) (tok msg : Str) (htok : tok ≠ [])
    (hlen : ∀ l ∈ lines, l.length < UINT) :
    displayErrorMessage (some lines) tok msg =
      if ∃ l ∈ lines, tok.Sublist l then .error (.report tok msg) else .ok () :=
  searchLines_eq tok msg htok lines hlen

theorem displayErrorMessage_found (tok msg : Str) (htok : tok ≠ [])
    (h : FoundInOneLine file tok) :
    displayErrorMessage file tok msg = .error (.report tok msg) := by
  obtain ⟨lines, hfile, hlen, hsub⟩ := h
  rw [hfile, displayErrorMessage_eq lines tok msg htok hlen, if_pos hsub]

/-! ## The trimming loops -/

theorem skipForward_spec (ws rest : Str) (hws : ∀ c ∈ ws, isWordSeparator c = true)
    (hrest : isWordSeparator (rest.headD (Char.ofNat 0)) = false) :
    ∀ (pre : Str) (fuel : Nat), ws.length < fuel →
      skipForward (pre ++ ws ++ rest) fuel (pre.length : Int) =
        .ok ((pre.length : Int) + (ws.length : Int)) := by
  induction ws with
  | nil =>
    intro pre fuel hfuel
    cases fuel with
    | zero => simp at hfuel
    | succ fuel =>
      simp only [List.append_nil, skipForward, readAt_append_right, bind, Except.bind, hrest]
      simp [pure, Except.pure]
  | cons w ws ih =>
    intro pre fuel hfuel
    cases fuel with
    | zero => simp at hfuel
    | succ fuel =>
      have hw : isWordSeparator w = true := hws w (by simp)
      have hread : readAt (pre ++ w :: ws ++ rest) (pre.length : Int) = .ok w := by
        rw [List.append_assoc, readAt_append_right]; rfl
      simp only [skipForward, hread, bind, Except.bind, hw, if_true]
      have h := ih (fun c hc => hws c (by simp [hc])) (pre ++ [w]) fuel
        (by simp at hfuel; omega)
      have e1 : pre ++ [w] ++ ws ++ rest = pre ++ w :: ws ++ rest := by simp
      have e2 : (((pre ++ [w]).length : Nat) : Int) = (pre.length : Int) + 1 := by simp
      rw [e1, e2] at h
      rw [h]; simp; omega

theorem skipBackward_stop (s : Str) (fuel : Nat) (i : Int) (c : Char)
    (hread : readAt s i = .ok c) (hc : isWordSeparator c = false) :
    skipBackward s (fuel + 1) i = .ok i := by
  simp [skipBackward, hread, bind, Except.bind, hc, pure, Except.pure]

/-! ## `isTagName` -/

theorem validateTag_eq (x : Str) :
    validateTag file x =
      if x ∈ grammarTags then .ok true
      else (displayErrorMessage file ('<' :: (x ++ ['>'])) unknownTagReason).bind
        (fun _ => .ok false) := by
  have h : (grammarTags.any (fun t => x == t) = true) ↔ x ∈ grammarTags := by
    simp [List.any_eq_true]
  unfold validateTag
  by_cases hx : x ∈ grammarTags
  · rw [if_pos (h.mpr hx), if_pos hx]
  · rw [if_neg (fun hh => hx (h.mp hh)), if_neg hx]
    rfl

theorem validateTag_outside (x : Str) (hx : x ∉ grammarTags) :
    validateTag file x = .ok false ∨ ∃ e, validateTag file x = .error e := by
  rw [validateTag_eq, if_neg hx]
  cases displayErrorMessage file ('<' :: (x ++ ['>'])) unknownTagReason with
  | error e => exact Or.inr ⟨e, rfl⟩
  | ok u => exact Or.inl rfl

theorem validateTag_true_iff (x : Str) : validateTag file x = .ok true ↔ x ∈ grammarTags := by
  constructor
  · intro h
    by_contra hx
    rcases validateTag_outside x hx with h1 | ⟨e, h1⟩ <;> rw [h1] at h <;> cases h
  · intro hx
    rw [validateTag_eq, if_pos hx]

theorem isTagName_grammar (x : Str) (h : x ∈ grammarTags) : isTagName x = .ok true := by
  simp only [grammarTags, List.mem_cons, List.mem_singleton, List.not_mem_nil, or_false] at h
  rcases h with h | h | h | h | h | h | h | h | h | h <;> subst h <;> decide

theorem isWordSeparator_grammar (x : Str) (h : x ∈ grammarTags) :
    ∀ c ∈ x, isWordSeparator c = false := by
  simp only [grammarTags, List.mem_cons, List.mem_singleton, List.not_mem_nil, or_false] at h
  rcases h with h | h | h | h | h | h | h | h | h | h <;> subst h <;> decide

theorem readAt_beforeLast (body : Str) (a z : Char) :
    readAt (a :: (body ++ [z])) (((a :: (body ++ [z])).length : Int) - 2) =
      .ok (body.getLast?.getD a) := by
  induction body using List.reverseRecOn with
  | nil => simp [readAt]
  | append_singleton b y _ =>
    have h := readAt_last2 (a :: b) y z
    have e : a :: b ++ [y, z] = a :: (b ++ [y] ++ [z]) := by simp
    rw [e] at h
    rw [h]; simp

theorem isTagOpen_shaped (body : Str) :
    isTagOpen file ('<' :: (body ++ ['>'])) =
      if body.getLast? = some '/' ∨ body.head? = some '/' then .ok false
      else if body.dropWhile isWordSeparator ∈ grammarTags then .ok true
      else (displayErrorMessage file ('<' :: (body.dropWhile isWordSeparator ++ ['>']))
        unknownTagReason).bind (fun _ => .ok false) := by
  have hl1 : readAt ('<' :: (body ++ ['>'])) ((('<' :: (body ++ ['>'])).length : Int) - 1)
      = .ok '>' := by
    have h := readAt_last ('<' :: body) '>'
    rwa [List.cons_append] at h
  have hl2 := readAt_beforeLast body '<' '>'
  have h1 : readAt ('<' :: (body ++ ['>'])) 1 = .ok (body.head?.getD '>') := by
    rw [readAt_one]; cases body <;> rfl
  have hfw : skipForward ('<' :: (body ++ ['>'])) (('<' :: (body ++ ['>'])).length + 1) 1 =
      .ok (1 + ((body.takeWhile isWordSeparator).length : Int)) := by
    have h := skipForward_spec (body.takeWhile isWordSeparator)
      (body.dropWhile isWordSeparator ++ ['>'])
      (fun c hc => (List.mem_takeWhile_imp hc))
      (headD_dropWhile_separator body '>' (by decide)) ['<']
      (('<' :: (body ++ ['>'])).length + 1)
      (by
        have := (List.takeWhile_sublist (l := body) isWordSeparator).length_le
        simp; omega)
    have e : ['<'] ++ body.takeWhile isWordSeparator ++
        (body.dropWhile isWordSeparator ++ ['>']) = '<' :: (body ++ ['>']) := by
      rw [List.append_assoc, ← List.append_assoc (body.takeWhile isWordSeparator),
        List.takeWhile_append_dropWhile]
      rfl
    rw [e] at h
    simpa using h
  have hbw : skipBackward ('<' :: (body ++ ['>'])) (('<' :: (body ++ ['>'])).length + 1)
      ((('<' :: (body ++ ['>'])).length : Int) - 1) =
      .ok ((('<' :: (body ++ ['>'])).length : Int) - 1) :=
    skipBackward_stop _ _ _ '>' hl1 (by decide)
  have hk := (List.takeWhile_sublist (l := body) isWordSeparator).length_le
  have hsub : substr ('<' :: (body ++ ['>']))
      (1 + ((body.takeWhile isWordSeparator).length : Int))
      ((('<' :: (body ++ ['>'])).length : Int) - 1 -
        (1 + ((body.takeWhile isWordSeparator).length : Int))) =
      .ok (body.dropWhile isWordSeparator) := by
    have e1 : (1 + ((body.takeWhile isWordSeparator).length : Int)) =
        ((1 + (body.takeWhile isWordSeparator).length : Nat) : Int) := by simp
    have e2 : ((('<' :: (body ++ ['>'])).length : Int) - 1 -
        (1 + ((body.takeWhile isWordSeparator).length : Int))) =
        ((body.length - (body.takeWhile isWordSeparator).length : Nat) : Int) := by
      simp; omega
    rw [e2, e1, substr_nat _ _ _ (by simp; omega)]
    have e3 : ('<' :: (body ++ ['>'])).drop (1 + (body.takeWhile isWordSeparator).length) =
        body.dropWhile isWordSeparator ++ ['>'] := by
      rw [Nat.add_comm, List.drop_succ_cons,
        List.drop_append_of_le_length hk, drop_length_takeWhile]
    rw [e3]
    have e4 : body.length - (body.takeWhile isWordSeparator).length =
        (body.dropWhile isWordSeparator).length := by
      rw [← drop_length_takeWhile, List.length_drop]
    rw [e4, List.take_left]
  unfold isTagOpen
  simp only [List.isEmpty_cons, Bool.false_eq_true, if_false, readAt_zero, hl1, hl2, h1, hfw,
    hbw, hsub, bind, Except.bind, pure, Except.pure, List.headD_cons, validateTag_eq]
  by_cases hlast : body.getLast? = some '/'
  · simp [hlast]
  · by_cases hhead : body.head? = some '/'
    · simp [hhead]
    · have g1 : ((body.getLast?.getD '<') == '/') = false := by
        cases hb : body.getLast? with
        | none => decide
        | some y =>
          rw [hb] at hlast
          simpa using fun h => hlast (by rw [h])
      have g2 : ((body.head?.getD '>') == '/') = false := by
        cases hb : body.head? with
        | none => decide
        | some y =>
          rw [hb] at hhead
          simpa using fun h => hhead (by rw [h])
      by_cases hmem : body.dropWhile isWordSeparator ∈ grammarTags
      · simp [hlast, hhead, g1, g2, hmem, isTagName_grammar _ hmem]
      · simp only [hlast, hhead, g1, g2, hmem, or_self, if_false, Bool.false_eq_true]
        cases displayErrorMessage file ('<' :: (body.dropWhile isWordSeparator ++ ['>']))
            unknownTagReason with
        | error e => rfl
        | ok u => rfl

theorem isTagOpen_not_shaped (t : Str) (h : ∀ body, t ≠ '<' :: (body ++ ['>'])) :
    isTagOpen file t = .ok false := by
  cases t with
  | nil => rfl
  | cons a r =>
    by_cases ha : a = '<'
    · subst ha
      induction r using List.reverseRecOn with
      | nil => rfl
      | append_singleton b z _ =>
        have hz : z ≠ '>' := fun hz => h b (by rw [hz])
        have hl := readAt_last ('<' :: b) z
        rw [List.cons_append] at hl
        unfold isTagOpen
        simp only [readAt_zero, hl, bind, Except.bind, pure, Except.pure]
        simp [hz]
    · unfold isTagOpen
      simp [readAt_zero, ha, bind, Except.bind, pure, Except.pure]

theorem isTagOpen_true_shape (t : Str) (h : isTagOpen file t = .ok true) :
    ∃ body, t = '<' :: (body ++ ['>']) := by
  by_contra hcon
  have : isTagOpen file t = .ok false :=
    isTagOpen_not_shaped t (fun body hb => hcon ⟨body, hb⟩)
  rw [this] at h
  cases h

theorem isTagClose_not_shaped (c : Str) (h : ∀ mid, c ≠ '<' :: '/' :: (mid ++ ['>'])) :
    isTagClose c = .ok false := by
  cases c with
  | nil => rfl
  | cons a r =>
    by_cases ha : a = '<'
    · subst ha
      cases r with
      | nil => decide
      | cons b r =>
        by_cases hb : b = '/'
        · subst hb
          induction r using List.reverseRecOn with
          | nil => decide
          | append_singleton m z _ =>
            have hz : z ≠ '>' := fun hz => h m (by rw [hz])
            have hl := readAt_last ('<' :: '/' :: m) z
            rw [List.cons_append, List.cons_append] at hl
            unfold isTagClose
            simp only [readAt_zero, readAt_one, hl, bind, Except.bind, pure, Except.pure]
            simp [hz]
        · unfold isTagClose
          simp [readAt_zero, readAt_one, hb, bind, Except.bind, pure, Except.pure]
    · unfold isTagClose
      simp [readAt_zero, ha, bind, Except.bind, pure, Except.pure]

theorem isTagClose_true_shape (c : Str) (h : isTagClose c = .ok true) :
    ∃ mid, c = '<' :: '/' :: (mid ++ ['>']) := by
  by_contra hcon
  have := isTagClose_not_shaped c (fun mid hb => hcon ⟨mid, hb⟩)
  rw [this] at h
  cases h

theorem isTagOpen_close_shaped (mid : Str) :
    isTagOpen file ('<' :: '/' :: (mid ++ ['>'])) = .ok false := by
  have h := @isTagOpen_shaped file ('/' :: mid)
  rw [List.cons_append] at h
  rw [h]
  simp

theorem compareTags_shaped (body mid : Str) :
    compareTags ('<' :: (body ++ ['>'])) ('<' :: '/' :: (mid ++ ['>'])) =
      .ok (body == mid) := by
  have h1 : substr ('<' :: (body ++ ['>'])) 1 ((('<' :: (body ++ ['>'])).length : Int) - 2)
      = .ok body := by
    have e : ((('<' :: (body ++ ['>'])).length : Int) - 2) = (body.length : Int) := by
      simp; omega
    have := substr_nat ('<' :: (body ++ ['>'])) 1 body.length (by simp)
    rw [e]
    simpa using this
  have h2 : substr ('<' :: '/' :: (mid ++ ['>'])) 2
      ((('<' :: '/' :: (mid ++ ['>'])).length : Int) - 3) = .ok mid := by
    have e : ((('<' :: '/' :: (mid ++ ['>'])).length : Int) - 3) = (mid.length : Int) := by
      simp; omega
    have := substr_nat ('<' :: '/' :: (mid ++ ['>'])) 2 mid.length (by simp)
    rw [e]
    simpa using this
  unfold compareTags
  rw [h1, h2]
  rfl

/-! ## The validator loop -/

theorem validateLoop_open (c : Str) (rest tags : List Str) (h : isTagOpen file c = .ok true) :
    validateLoop file (c :: rest) tags = validateLoop file rest (c :: tags) := by
  simp [validateLoop, h, bind, Except.bind]

theorem validateLoop_skip (c : Str) (rest tags : List Str) (h : isTagOpen file c = .ok false)
    (h2 : isTagClose c = .ok false) :
    validateLoop file (c :: rest) tags = validateLoop file rest tags := by
  simp [validateLoop, h, h2, bind, Except.bind]

theorem validateLoop_orphan (c : Str) (rest : List Str) (h : isTagOpen file c = .ok false)
    (h2 : isTagClose c = .ok true) :
    validateLoop file (c :: rest) [] =
      (displayErrorMessage file c "no open tags left to close".toList).bind
        (fun _ => .error .outOfBounds) := by
  rw [validateLoop]
  simp only [h, h2, bind, Except.bind]
  rfl

theorem validateLoop_close (c top : Str) (rest tags : List Str)
    (h : isTagOpen file c = .ok false) (h2 : isTagClose c = .ok true) :
    validateLoop file (c :: rest) (top :: tags) =
      match compareTags top c with
      | .error e => .error e
      | .ok true => validateLoop file rest tags
      | .ok false =>
        (displayErrorMessage file c
          ("no matching opening tag. Should close ".toList ++ top)).bind
            (fun _ => validateLoop file rest tags) := by
  rw [validateLoop]
  simp only [h, h2, bind, Except.bind]
  cases hc : compareTags top c with
  | error e => simp
  | ok b =>
    cases b with
    | true => simp [pure, Except.pure]
    | false =>
      simp only [Bool.not_false, if_true]
      cases displayErrorMessage file c
          ("no matching opening tag. Should close ".toList ++ top) with
      | error e => rfl
      | ok u => rfl

theorem validateLoop_open_error (c : Str) (rest tags : List Str) (e : Failure)
    (h : isTagOpen file c = .error e) : validateLoop file (c :: rest) tags = .error e := by
  simp [validateLoop, h, bind, Except.bind]

theorem validateLoop_close_error (c : Str) (rest tags : List Str) (e : Failure)
    (h : isTagOpen file c = .ok false) (h2 : isTagClose c = .error e) :
    validateLoop file (c :: rest) tags = .error e := by
  simp [validateLoop, h, h2, bind, Except.bind]

theorem validateLoop_append (pre rest : List Str) :
    ∀ tags, validateLoop file (pre ++ rest) tags =
      (validateLoop file pre tags).bind (validateLoop file rest) := by
  induction pre with
  | nil => intro tags; simp [validateLoop, Except.bind]
  | cons c pre ih =>
    intro tags
    rw [List.cons_append]
    cases ho : isTagOpen file c with
    | error e => simp [validateLoop_open_error _ _ _ e ho, Except.bind]
    | ok b =>
      cases b with
      | true => rw [validateLoop_open _ _ _ ho, validateLoop_open _ _ _ ho, ih]
      | false =>
        cases hc : isTagClose c with
        | error e => simp [validateLoop_close_error _ _ _ e ho hc, Except.bind]
        | ok b2 =>
          cases b2 with
          | false => rw [validateLoop_skip _ _ _ ho hc, validateLoop_skip _ _ _ ho hc, ih]
          | true =>
            cases tags with
            | nil =>
              rw [validateLoop_orphan _ _ ho hc, validateLoop_orphan _ _ ho hc]
              cases displayErrorMessage file c "no open tags left to close".toList with
              | error e => rfl
              | ok u => rfl
            | cons top tags' =>
              rw [validateLoop_close _ _ _ _ ho hc, validateLoop_close _ _ _ _ ho hc]
              cases hcmp : compareTags top c with
              | error e => simp [Except.bind]
              | ok b3 =>
                cases b3 with
                | true => simpa using ih tags'
                | false =>
                  dsimp only
                  cases displayErrorMessage file c
                      ("no matching opening tag. Should close ".toList ++ top) with
                  | error e => rfl
                  | ok u => exact ih tags'

theorem validateLoop_single (x : Str) (st0 st1 : List Str)
    (h : validateLoop file [x] st0 = .ok st1) :
    (isTagOpen file x = .ok true ∧ st1 = x :: st0) ∨ st1 = st0 ∨ ∃ top0, st0 = top0 :: st1 := by
  cases ho : isTagOpen file x with
  | error e => rw [validateLoop_open_error _ _ _ e ho] at h; cases h
  | ok b =>
    cases b with
    | true =>
      rw [validateLoop_open _ _ _ ho] at h
      simp only [validateLoop, Except.ok.injEq] at h
      exact Or.inl ⟨rfl, h.symm⟩
    | false =>
      cases hc : isTagClose x with
      | error e => rw [validateLoop_close_error _ _ _ e ho hc] at h; cases h
      | ok b2 =>
        cases b2 with
        | false =>
          rw [validateLoop_skip _ _ _ ho hc] at h
          simp only [validateLoop, Except.ok.injEq] at h
          exact Or.inr (Or.inl h.symm)
        | true =>
          cases st0 with
          | nil =>
            rw [validateLoop_orphan _ _ ho hc] at h
            cases hd : displayErrorMessage file x "no open tags left to close".toList with
            | error e => rw [hd] at h; cases h
            | ok u => rw [hd] at h; cases h
          | cons top0 tags =>
            rw [validateLoop_close _ _ _ _ ho hc] at h
            cases hcmp : compareTags top0 x with
            | error e => rw [hcmp] at h; cases h
            | ok b3 =>
              cases b3 with
              | false =>
                rw [hcmp] at h
                dsimp only at h
                cases hd : displayErrorMessage file x
                    ("no matching opening tag. Should close ".toList ++ top0) with
                | error e => rw [hd] at h; cases h
                | ok u =>
                  rw [hd] at h
                  simp only [Except.bind, validateLoop, Except.ok.injEq] at h
                  exact Or.inr (Or.inr ⟨top0, by rw [h]⟩)
              | true =>
                rw [hcmp] at h
                simp only [validateLoop, Except.ok.injEq] at h
                exact Or.inr (Or.inr ⟨top0, by rw [h]⟩)

theorem validateLoop_snoc_ok (init : List Str) (x : Str) (st st1 : List Str)
    (h : validateLoop file (init ++ [x]) st = .ok st1) :
    ∃ st0, validateLoop file init st = .ok st0 ∧ validateLoop file [x] st0 = .ok st1 := by
  rw [validateLoop_append] at h
  cases h0 : validateLoop file init st with
  | error e => rw [h0] at h; cases h
  | ok st0 => rw [h0] at h; exact ⟨st0, rfl, h⟩

/-- Every entry of the stack was pushed by an open tag of the sequence, and the tokens
after it leave it and everything below it in place. -/
theorem stack_origin (toks : List Str) :
    ∀ st1, validateLoop file toks [] = .ok st1 → ∀ above t below, st1 = above ++ t :: below →
      ∃ a b, toks = a ++ t :: b ∧ isTagOpen file t = .ok true ∧
        validateLoop file a [] = .ok below ∧ validateLoop file b (t :: below) = .ok st1 := by
  induction toks using List.reverseRecOn with
  | nil =>
    intro st1 h above t below hst
    simp only [validateLoop, Except.ok.injEq] at h
    rw [← h] at hst
    simp at hst
  | append_singleton init x ih =>
    intro st1 h above t below hst
    obtain ⟨st0, h0, hx⟩ := validateLoop_snoc_ok init x [] st1 h
    have keep : ∀ above0, st0 = above0 ++ t :: below →
        ∃ a b, init ++ [x] = a ++ t :: b ∧ isTagOpen file t = .ok true ∧
          validateLoop file a [] = .ok below ∧ validateLoop file b (t :: below) = .ok st1 := by
      intro above0 h00
      obtain ⟨a, b, hab, hopen, ha, hb⟩ := ih st0 h0 above0 t below h00
      refine ⟨a, b ++ [x], by rw [hab]; simp, hopen, ha, ?_⟩
      rw [validateLoop_append, hb]
      exact hx
    rcases validateLoop_single x st0 st1 hx with ⟨hopen, hpush⟩ | hsame | ⟨top0, hpop⟩
    · cases above with
      | nil =>
        rw [hpush] at hst
        simp only [List.nil_append, List.cons.injEq] at hst
        obtain ⟨hxt, hbelow⟩ := hst
        subst hxt; subst hbelow
        exact ⟨init, [], rfl, hopen, h0, by rw [hpush]; rfl⟩
      | cons p above0 =>
        rw [hpush] at hst
        simp only [List.cons_append, List.cons.injEq] at hst
        exact keep above0 hst.2
    · exact keep above (by rw [← hsame, hst])
    · exact keep (top0 :: above) (by rw [hpop, hst]; rfl)

theorem stack_all_open (toks : List Str) (st1 : List Str)
    (h : validateLoop file toks [] = .ok st1) : ∀ t ∈ st1, isTagOpen file t = .ok true := by
  intro t ht
  obtain ⟨above, below, hsplit⟩ := List.append_of_mem ht
  obtain ⟨_, _, _, hopen, _, _⟩ := stack_origin toks st1 h above t below hsplit
  exact hopen

theorem validateContents_of_tokens (text : Str) (toks : List Str)
    (h : tokenizeHTML text [] = .ok toks) : validateContents file text = validateHTML file toks := by
  simp [validateContents, h, bind, Except.bind]

theorem validateHTML_of_loop_error (toks : List Str) (e : Failure)
    (h : validateLoop file toks [] = .error e) : validateHTML file toks = .error e := by
  simp [validateHTML, h, bind, Except.bind]

/-! ## C5: unclosed open tags -/

/-- The end of input on a non-empty stack (source lines 239-244): the tag on top is handed
to `displayErrorMessage`, and when that call returns `validateHTML` returns false. The tag
on top is an open tag of the sequence, pushed when the stack was `below`, and the tokens
after it leave it on top. -/
theorem unclosed_open_outcome (tokens : List Str) (top : Str) (below : List Str)
    (h : validateLoop file tokens [] = .ok (top :: below)) :
    validateHTML file tokens =
        (displayErrorMessage file top "no matching closing tag.".toList).bind
          (fun _ => .ok false) ∧
      ∃ a b, tokens = a ++ top :: b ∧ isTagOpen file top = .ok true ∧
        validateLoop file a [] = .ok below ∧
        validateLoop file b (top :: below) = .ok (top :: below) := by
  refine ⟨?_, stack_origin tokens (top :: below) h [] top below rfl⟩
  simp only [validateHTML, h, bind, Except.bind]
  cases displayErrorMessage file top "no matching closing tag.".toList with
  | error e => rfl
  | ok u => rfl

/-- When the tag left on top of the stack can be read off one line of the file, the run
fails with the reason "no matching closing tag." citing that tag. -/
theorem unclosed_open_reported_when_found (tokens : List Str) (top : Str)
    (below : List Str) (h : validateLoop file tokens [] = .ok (top :: below))
    (hfound : FoundInOneLine file top) :
    validateHTML file tokens = .error (.report top "no matching closing tag.".toList) := by
  obtain ⟨hrun, _, _, _, hopen, _, _⟩ := unclosed_open_outcome tokens top below h
  obtain ⟨body, hbody⟩ := isTagOpen_true_shape top hopen
  rw [hrun, displayErrorMessage_found top _ (by rw [hbody]; simp) hfound]
  rfl

/-- C5 (failing input): the claim fails on the file whose two lines are `<u` and `l>`: the contents are `<ul>`, the
only token `<ul>` is consumed without error and stays on the stack, the search of
`displayErrorMessage` finds the tag in no single line and returns, and `validateHTML`
returns false without raising the unclosed-open error. On the one-line file
`<ul><li></li>` the error is raised as claimed, citing `<ul>`. -/
theorem unclosed_open_across_lines_unreported :
    fileContents ["<u".toList, "l>".toList] = "<ul>".toList ∧
      tokenizeHTML "<ul>".toList [] = .ok ["<ul>".toList] ∧
      validateLoop (some ["<u".toList, "l>".toList]) ["<ul>".toList] [] =
        .ok ["<ul>".toList] ∧
      displayErrorMessage (some ["<u".toList, "l>".toList]) "<ul>".toList
        "no matching closing tag.".toList = .ok () ∧
      validateHTML (some ["<u".toList, "l>".toList]) ["<ul>".toList] = .ok false ∧
      validateFile ["<u".toList, "l>".toList] = .ok false ∧
      validateFile ["<ul><li></li>".toList] =
        .error (.report "<ul>".toList "no matching closing tag.".toList) := by
  decide

/-! ## C3: mismatched close tags -/

/-- A close token that `isTagClose` accepts and whose name differs from the name of the
tag on top of the stack is handed to `displayErrorMessage` with the mismatched-close
reason naming that tag (source lines 229-233); when the call returns, the tag on top has
been popped and the loop goes on with the next token. -/
theorem mismatched_close_outcome (pre post : List Str) (c top : Str) (below : List Str)
    (hpre : validateLoop file pre [] = .ok (top :: below))
    (hclose : isTagClose c = .ok true)
    (hname : closeTagName c ≠ openTagName top) :
    validateLoop file (pre ++ c :: post) [] =
      (displayErrorMessage file c
        ("no matching opening tag. Should close ".toList ++ top)).bind
          (fun _ => validateLoop file post below) := by
  obtain ⟨mid, hmid⟩ := isTagClose_true_shape c hclose
  obtain ⟨body, hbody⟩ :=
    isTagOpen_true_shape top (stack_all_open pre _ hpre top (by simp))
  have hopen : isTagOpen file c = .ok false := by rw [hmid]; exact isTagOpen_close_shaped mid
  have hne : body ≠ mid := by
    intro hbm
    apply hname
    rw [hmid, hbody, hbm]
    simp [closeTagName, openTagName]
  have hcmp : compareTags top c = .ok false := by
    rw [hmid, hbody, compareTags_shaped]
    simp [hne]
  rw [validateLoop_append, hpre]
  simp only [Except.bind]
  rw [validateLoop_close _ _ _ _ hopen hclose, hcmp]
  rfl

/-- When, in addition, the close token can be read off one line of the file, the run
fails with the mismatched-close reason, citing the close token and naming the tag on top
of the stack. -/
theorem mismatched_close_reported_when_found (text : Str) (pre post : List Str)
    (c top : Str) (below : List Str)
    (htok : tokenizeHTML text [] = .ok (pre ++ c :: post))
    (hpre : validateLoop file pre [] = .ok (top :: below))
    (hclose : isTagClose c = .ok true)
    (hname : closeTagName c ≠ openTagName top)
    (hfound : FoundInOneLine file c) :
    validateContents file text =
      .error (.report c ("no matching opening tag. Should close ".toList ++ top)) := by
  obtain ⟨mid, hmid⟩ := isTagClose_true_shape c hclose
  rw [validateContents_of_tokens text _ htok]
  apply validateHTML_of_loop_error
  rw [mismatched_close_outcome pre post c top below hpre hclose hname,
    displayErrorMessage_found c _ (by rw [hmid]; simp) hfound]
  rfl

/-- C3 (failing inputs): the claim fails on two kinds of input. On `<ul></p>` the first violation is the close tag
`</p>`, whose name differs from `ul`; `isTagClose` reads outside the empty string it
checks as the name and no mismatched-close error is raised, whatever the file. On the
file whose three lines are `<ul>`, `</l` and `i>` the contents are `<ul></li>`; the search
of `displayErrorMessage` finds `</li>` in no single line and returns, the stack is popped
and the run returns true. On the one-line files `<ul><li></ul></li>` and `<html></body>`
the error is raised as claimed. -/
theorem mismatched_close_not_reported :
    tokenizeHTML "<ul></p>".toList [] = .ok ["<ul>".toList, "</p>".toList] ∧
      isTagClose "</p>".toList = .error .outOfBounds ∧
      (∀ file : FileView, validateContents file "<ul></p>".toList = .error .outOfBounds) ∧
      fileContents ["<ul>".toList, "</l".toList, "i>".toList] = "<ul></li>".toList ∧
      tokenizeHTML "<ul></li>".toList [] = .ok ["<ul>".toList, "</li>".toList] ∧
      displayErrorMessage (some ["<ul>".toList, "</l".toList, "i>".toList]) "</li>".toList
        ("no matching opening tag. Should close ".toList ++ "<ul>".toList) = .ok () ∧
      validateFile ["<ul>".toList, "</l".toList, "i>".toList] = .ok true ∧
      validateFile ["<ul><li></ul></li>".toList] =
        .error (.report "</ul>".toList
          ("no matching opening tag. Should close ".toList ++ "<li>".toList)) ∧
      validateFile ["<html></body>".toList] =
        .error (.report "</body>".toList
          ("no matching opening tag. Should close ".toList ++ "<html>".toList)) :=
  ⟨by decide, by decide, fun _ => rfl, by decide, by decide, by decide, by decide,
    by decide, by decide⟩

/-! ## C4: tags outside the vocabulary -/

theorem tokenizeStep_close (p0 cur rest : Str) (toks : List Str)
    (hlen : (p0 ++ cur ++ '>' :: rest).length < UINT) :
    tokenizeStep (p0 ++ cur ++ '>' :: rest)
        { i := (p0 ++ cur).length, tokenCount := cur.length, tokens := toks } =
      .ok { i := (p0 ++ cur ++ ['>']).length, tokenCount := 1,
            tokens := toks ++ [cur ++ ['>']] } := by
  have hread := readAt_append_right (p0 ++ cur) ('>' :: rest)
  simp only [List.length_append, List.length_cons, UINT] at hlen
  have e1 : ((p0 ++ cur).length + UINT - cur.length) % UINT = p0.length := by
    simp only [List.length_append, UINT]; omega
  have e2 : (cur.length + 1) % UINT = cur.length + 1 := by
    simp only [UINT]; omega
  have e3 : ((p0 ++ cur).length + 1) % UINT = (p0 ++ cur ++ ['>']).length := by
    simp only [List.length_append, List.length_cons, List.length_nil, UINT]; omega
  have hsub : substr (p0 ++ cur ++ '>' :: rest) (p0.length : Int) ((cur.length + 1 : Nat) : Int)
      = .ok (cur ++ ['>']) := by
    rw [substr_nat _ _ _ (by simp only [List.length_append]; omega), List.append_assoc,
      List.drop_left]
    have : cur ++ '>' :: rest = (cur ++ ['>']) ++ rest := by simp
    rw [this]
    have hl : cur.length + 1 = (cur ++ ['>']).length := by simp
    rw [hl, List.take_left]
  unfold tokenizeStep
  simp only [hread, List.headD_cons, bind, Except.bind, e1, e2, e3, hsub, pure, Except.pure]
  rfl

theorem tokenizeStep_open (p0 cur rest : Str) (toks : List Str) (hcur : cur ≠ [])
    (hlen : (p0 ++ cur ++ '<' :: rest).length < UINT) :
    tokenizeStep (p0 ++ cur ++ '<' :: rest)
        { i := (p0 ++ cur).length, tokenCount := cur.length, tokens := toks } =
      .ok { i := (p0 ++ cur ++ ['<']).length, tokenCount := 1,
            tokens := if keepsContent cur.tail then toks ++ [cur.tail] else toks } := by
  have hread := readAt_append_right (p0 ++ cur) ('<' :: rest)
  have hpos : 0 < cur.length := List.length_pos.mpr hcur
  simp only [List.length_append, List.length_cons, UINT] at hlen
  have e1 : (((p0 ++ cur).length + UINT - cur.length) % UINT + 1) % UINT = p0.length + 1 := by
    simp only [List.length_append, UINT]; omega
  have e2 : (cur.length + UINT - 1) % UINT = cur.length - 1 := by
    simp only [UINT]; omega
  have e3 : ((p0 ++ cur).length + 1) % UINT = (p0 ++ cur ++ ['<']).length := by
    simp only [List.length_append, List.length_cons, List.length_nil, UINT]; omega
  have hi : (p0 ++ cur).length > 0 := by simp only [List.length_append]; omega
  have hsub : substr (p0 ++ cur ++ '<' :: rest) ((p0.length + 1 : Nat) : Int)
      ((cur.length - 1 : Nat) : Int) = .ok cur.tail := by
    rw [substr_nat _ _ _ (by simp only [List.length_append, List.length_cons]; omega)]
    cases cur with
    | nil => exact absurd rfl hcur
    | cons a t =>
      have : p0 ++ a :: t ++ '<' :: rest = (p0 ++ [a]) ++ (t ++ '<' :: rest) := by simp
      rw [this]
      have hl : p0.length + 1 = (p0 ++ [a]).length := by simp
      rw [hl, List.drop_left]
      simp
  have hcond : (('<' : Char) == '<' && decide ((p0 ++ cur).length > 0)) = true := by
    rw [decide_eq_true hi]; rfl
  have hgt : (('<' : Char) == '>') = false := by decide
  unfold tokenizeStep
  simp only [hread, List.headD_cons, bind, Except.bind, e1, e2, e3, hsub, pure, Except.pure,
    hcond, hgt]
  rfl

theorem tokenizeStep_other (p0 cur rest : Str) (c : Char) (toks : List Str)
    (hc : c ≠ '>') (hc2 : c ≠ '<' ∨ (p0 ++ cur) = [])
    (hlen : (p0 ++ cur ++ c :: rest).length < UINT) :
    tokenizeStep (p0 ++ cur ++ c :: rest)
        { i := (p0 ++ cur).length, tokenCount := cur.length, tokens := toks } =
      .ok { i := (p0 ++ cur ++ [c]).length, tokenCount := (cur ++ [c]).length,
            tokens := toks } := by
  have hread := readAt_append_right (p0 ++ cur) (c :: rest)
  simp only [List.length_append, List.length_cons, UINT] at hlen
  have e2 : (cur.length + 1) % UINT = (cur ++ [c]).length := by
    simp only [List.length_append, List.length_cons, List.length_nil, UINT]; omega
  have e3 : ((p0 ++ cur).length + 1) % UINT = (p0 ++ cur ++ [c]).length := by
    simp only [List.length_append, List.length_cons, List.length_nil, UINT]; omega
  have hcond : (c == '<' && decide ((p0 ++ cur).length > 0)) = false := by
    rcases hc2 with h | h
    · simp [h]
    · simp [h]
  unfold tokenizeStep
  simp only [hread, List.headD_cons, bind, Except.bind, e2, e3, pure, Except.pure, hcond]
  simp [hc]

/-- The loop of `tokenizeHTML`, started with the cursor after `p0 ++ cur` and the running
counter equal to the length of `cur`, reads the rest of the text in exactly the way
`scan` does and stops with the cursor at the end of the text. -/
theorem tokenizeLoop_scan (rest : Str) :
    ∀ (p0 cur : Str) (toks : List Str) (fuel : Nat),
      (p0 ++ cur ++ rest).length < UINT → (p0 ≠ [] → cur ≠ []) → rest.length ≤ fuel →
      ∃ tc, tokenizeLoop (p0 ++ cur ++ rest) fuel
          { i := (p0 ++ cur).length, tokenCount := cur.length, tokens := toks } =
        .ok { i := (p0 ++ cur ++ rest).length, tokenCount := tc,
              tokens := scan rest cur toks } := by
  induction rest with
  | nil =>
    intro p0 cur toks fuel _ _ _
    refine ⟨cur.length, ?_⟩
    cases fuel <;> simp [tokenizeLoop, scan]
  | cons c rest ih =>
    intro p0 cur toks fuel hlen hcur hfuel
    cases fuel with
    | zero => simp at hfuel
    | succ fuel =>
      have hf : rest.length ≤ fuel := by simp at hfuel; omega
      have hlt : (p0 ++ cur).length < (p0 ++ cur ++ c :: rest).length := by simp
      rw [tokenizeLoop]
      simp only [hlt, if_true, bind, Except.bind]
      by_cases hgt : c = '>'
      · subst hgt
        rw [tokenizeStep_close p0 cur rest toks hlen]
        have h := ih (p0 ++ cur) ['>'] (toks ++ [cur ++ ['>']]) fuel
          (by simpa using hlen) (fun _ => by simp) hf
        have e : p0 ++ cur ++ ['>'] ++ rest = p0 ++ cur ++ '>' :: rest := by simp
        rw [e] at h
        simpa [scan] using h
      · by_cases hlt2 : c = '<' ∧ cur ≠ []
        · obtain ⟨hc, hne⟩ := hlt2
          subst hc
          rw [tokenizeStep_open p0 cur rest toks hne hlen]
          have h := ih (p0 ++ cur) ['<']
            (if keepsContent cur.tail then toks ++ [cur.tail] else toks) fuel
            (by simpa using hlen) (fun _ => by simp) hf
          have e : p0 ++ cur ++ ['<'] ++ rest = p0 ++ cur ++ '<' :: rest := by simp
          rw [e] at h
          simpa [scan, hne] using h
        · have hc2 : c ≠ '<' ∨ (p0 ++ cur) = [] := by
            by_cases hc : c = '<'
            · right
              have hcn : cur = [] := by
                by_contra hne
                exact hlt2 ⟨hc, hne⟩
              have hp : p0 = [] := by
                by_contra hne
                exact hcur hne hcn
              rw [hcn, hp]; rfl
            · exact Or.inl hc
          rw [tokenizeStep_other p0 cur rest c toks hgt hc2 hlen]
          have h := ih p0 (cur ++ [c]) toks fuel (by simpa using hlen) (fun _ => by simp) hf
          have e : p0 ++ (cur ++ [c]) ++ rest = p0 ++ cur ++ c :: rest := by simp
          have e' : p0 ++ (cur ++ [c]) = p0 ++ cur ++ [c] := by simp
          rw [e, e'] at h
          simpa [scan, hgt, hlt2] using h

theorem tokenizeHTML_eq_scan (s : Str) (toks : List Str) (hlen : s.length < UINT) :
    tokenizeHTML s toks = .ok (scan s [] toks) := by
  obtain ⟨tc, h⟩ := tokenizeLoop_scan s [] [] toks s.length (by simpa using hlen)
    (fun h => absurd rfl h) (Nat.le_refl _)
  simp only [List.append_nil, List.nil_append, List.length_nil] at h
  simp [tokenizeHTML, h, bind, Except.bind, pure, Except.pure]

theorem scan_content (c : Str) (hc : IsContentRun c) :
    ∀ (rest cur : Str) (toks : List Str),
      scan (c ++ rest) cur toks = scan rest (cur ++ c) toks := by
  induction c with
  | nil => intro rest cur toks; simp
  | cons x c ih =>
    intro rest cur toks
    have hx := hc x (by simp)
    have h := ih (fun y hy => hc y (by simp [hy])) rest (cur ++ [x]) toks
    rw [List.cons_append, scan, if_neg hx.2, if_neg (fun hh => hx.1 hh.1), h]
    simp

theorem scan_tag (body : Str) (hbody : IsContentRun body) (rest cur : Str)
    (toks : List Str) :
    scan ('<' :: (body ++ ['>']) ++ rest) cur toks =
      scan rest ['>']
        ((if cur ≠ [] ∧ keepsContent cur.tail = true then toks ++ [cur.tail] else toks) ++
          ['<' :: (body ++ ['>'])]) := by
  have hlt : ('<' : Char) ≠ '>' := by decide
  have e : '<' :: (body ++ ['>']) ++ rest = '<' :: (body ++ '>' :: rest) := by simp
  rw [e]
  by_cases hcur : cur = []
  · subst hcur
    simp only [scan, hlt, if_false, ne_eq, not_true_eq_false, and_false, false_and]
    rw [scan_content body hbody]
    simp [scan]
  · simp only [scan, hlt, if_false, ne_eq, hcur, not_false_eq_true, and_self, if_true, true_and]
    rw [scan_content body hbody]
    simp [scan]

theorem scan_segments (segs : List (Str × Str))
    (hsegs : ∀ p ∈ segs, IsContentRun p.1 ∧ IsTagString p.2) :
    ∀ toks, scan (segmentsText segs) ['>'] toks = toks ++ segmentsTokens segs := by
  induction segs with
  | nil => intro toks; simp [segmentsText, segmentsTokens, scan]
  | cons p segs ih =>
    intro toks
    obtain ⟨c, t⟩ := p
    obtain ⟨hc, body, ht, hbody⟩ := hsegs (c, t) (by simp)
    subst ht
    simp only [segmentsText, segmentsTokens]
    rw [scan_content c hc, scan_tag body hbody, ih (fun q hq => hsegs q (by simp [hq]))]
    by_cases hk : keepsContent c = true <;> simp [hk]

/-! ## Texts of 2^32 characters and more -/

theorem getD_replicate_lt (n i : Nat) (a d : Char) (h : i < n) :
    (List.replicate n a).getD i d = a := by
  simp [List.getD, List.getElem?_replicate, h]

/-- One iteration on a character that is not a delimiter, or on a `<` at index 0. -/
theorem tokenizeStep_plain (s : Str) (i tc : Nat) (toks : List Str) (hi : i ≤ s.length)
    (hgt : s.getD i (Char.ofNat 0) ≠ '>')
    (hlt : s.getD i (Char.ofNat 0) = '<' → i = 0) :
    tokenizeStep s { i := i, tokenCount := tc, tokens := toks } =
      .ok { i := (i + 1) % UINT, tokenCount := (tc + 1) % UINT, tokens := toks } := by
  unfold tokenizeStep
  simp only []
  rw [readAt_nat _ _ hi]
  have h1 : (s.getD i (Char.ofNat 0) == '>') = false := by simpa using hgt
  have h2 : (s.getD i (Char.ofNat 0) == '<' && decide (i > 0)) = false := by
    by_cases hc : s.getD i (Char.ofNat 0) = '<'
    · rw [hc, hlt hc]
      rfl
    · rw [beq_false_of_ne hc]
      rfl
  simp only [bind, Except.bind, h1, h2, Bool.false_eq_true, if_false]
  rfl

/-- One iteration on a `>`. -/
theorem tokenizeStep_gt (s : Str) (i tc : Nat) (toks : List Str) (token : Str)
    (hi : i ≤ s.length) (hc : s.getD i (Char.ofNat 0) = '>')
    (hs : substr s (((i + UINT - tc) % UINT : Nat) : Int) (((tc + 1) % UINT : Nat) : Int) =
      .ok token) :
    tokenizeStep s { i := i, tokenCount := tc, tokens := toks } =
      .ok { i := (i + 1) % UINT, tokenCount := (0 + 1) % UINT, tokens := toks ++ [token] } := by
  unfold tokenizeStep
  simp only []
  rw [readAt_nat _ _ hi, hc]
  simp only [bind, Except.bind, beq_self_eq_true, if_true, hs]
  rfl

theorem tokenizeStateAfter_succ (s : Str) (tokens : List Str) (k : Nat) (st : TokState)
    (h : tokenizeStateAfter s tokens k = .ok st) :
    tokenizeStateAfter s tokens (k + 1) = tokenizeStep s st := by
  rw [tokenizeStateAfter, h]
  rfl

/-- A text of 2^32 characters or more whose first 2^32 characters hold no `>` and no `<`
except at index 0: the 32-bit cursor wraps to 0 before it reaches the length, so the loop
of `tokenizeHTML` does not end, whatever the number of iterations granted. -/
theorem tokenizeLoop_never_returns (s : Str) (hlen : UINT ≤ s.length)
    (hplain : ∀ i, i < UINT → s.getD i (Char.ofNat 0) ≠ '>' ∧
      (s.getD i (Char.ofNat 0) = '<' → i = 0)) :
    ∀ fuel i tc toks, i < UINT →
      tokenizeLoop s fuel { i := i, tokenCount := tc, tokens := toks } = .error .fuel := by
  intro fuel
  induction fuel with
  | zero =>
    intro i tc toks hst
    rw [tokenizeLoop, if_pos (show i < s.length by omega)]
  | succ fuel ih =>
    intro i tc toks hst
    rw [tokenizeLoop, if_pos (show i < s.length by omega),
      tokenizeStep_plain s i tc toks (by omega) (hplain i hst).1 (hplain i hst).2]
    exact ih _ _ _ (Nat.mod_lt _ (by decide))

theorem tokenizeHTML_never_returns (s : Str) (out : List Str) (hlen : UINT ≤ s.length)
    (hplain : ∀ i, i < UINT → s.getD i (Char.ofNat 0) ≠ '>' ∧
      (s.getD i (Char.ofNat 0) = '<' → i = 0)) :
    tokenizeHTML s out = .error .fuel := by
  unfold tokenizeHTML
  rw [tokenizeLoop_never_returns s hlen hplain _ _ _ _ (show 0 < UINT by decide)]
  rfl

theorem replicate_plain :
    ∀ i, i < UINT → (List.replicate UINT 'a').getD i (Char.ofNat 0) ≠ '>' ∧
      ((List.replicate UINT 'a').getD i (Char.ofNat 0) = '<' → i = 0) := by
  intro i hi
  rw [getD_replicate_lt _ _ _ _ hi]
  exact ⟨by decide, fun hc => absurd hc (by decide)⟩

theorem replicate_getD (rest : Str) (i : Nat) (hi : i < UINT) :
    (List.replicate UINT 'a' ++ rest).getD i (Char.ofNat 0) = 'a' := by
  have hl : (List.replicate UINT 'a').length = UINT := List.length_replicate _ _
  rw [List.getD_append _ _ _ _ (by rw [hl]; exact hi), getD_replicate_lt _ _ _ _ hi]

theorem tag_replicate_plain :
    ∀ i, i < UINT →
      ('<' :: (List.replicate UINT 'a' ++ ['>'])).getD i (Char.ofNat 0) ≠ '>' ∧
      (('<' :: (List.replicate UINT 'a' ++ ['>'])).getD i (Char.ofNat 0) = '<' → i = 0) := by
  intro i hi
  cases i with
  | zero =>
    have e : ('<' :: (List.replicate UINT 'a' ++ ['>'])).getD 0 (Char.ofNat 0) = '<' :=
      List.getD_cons_zero
    rw [e]
    exact ⟨by decide, fun _ => rfl⟩
  | succ j =>
    have e : ('<' :: (List.replicate UINT 'a' ++ ['>'])).getD (j + 1) (Char.ofNat 0) =
        (List.replicate UINT 'a' ++ ['>']).getD j (Char.ofNat 0) := List.getD_cons_succ
    rw [e, replicate_getD ['>'] j (by omega)]
    exact ⟨by decide, fun hc => absurd hc (by decide)⟩

theorem tag_replicate_length :
    UINT ≤ ('<' :: (List.replicate UINT 'a' ++ ['>'])).length := by
  rw [List.length_cons, List.length_append, List.length_replicate]
  omega

/-! ## C6: tags and contents of a well-delimited text -/

/-- The claim of C6 fails for a text of 2^32 characters or more: the text made of the
one tag string `<`, 2^32 times `a`, `>` has the form the claim asks for (a single tag, no
content), yet `tokenizeHTML` appends nothing and does not return. The 32-bit cursor `i`
wraps to 0 after index 2^32 - 1, before it has reached the `>` or the length, so the loop
does not end, whatever the number of iterations granted. -/
theorem tokenizeHTML_long_tag_never_returns :
    IsTagString ('<' :: (List.replicate UINT 'a' ++ ['>'])) ∧
      segmentsText [] = [] ∧
      tokenizeHTML ('<' :: (List.replicate UINT 'a' ++ ['>']) ++ segmentsText []) [] =
        .error .fuel ∧
      ∀ fuel, tokenizeLoop ('<' :: (List.replicate UINT 'a' ++ ['>'])) fuel
        { i := 0, tokenCount := 0, tokens := [] } = .error .fuel := by
  refine ⟨⟨List.replicate UINT 'a', rfl, ?_⟩, rfl, ?_, ?_⟩
  · intro x hx
    rw [List.eq_of_mem_replicate hx]
    exact ⟨by decide, by decide⟩
  · rw [segmentsText, List.append_nil]
    exact tokenizeHTML_never_returns _ _ tag_replicate_length tag_replicate_plain
  · intro fuel
    exact tokenizeLoop_never_returns _ tag_replicate_length tag_replicate_plain fuel _ _ _
      (show 0 < UINT by decide)

/-- C6, amended to texts shorter than 2^32 characters (the range of the `unsigned int`
cursor): for such a text `t1 c1 t2 c2 ... tn` in which every `ti` is a tag string and
every `ci` a run without `<` and `>`, `tokenizeHTML` returns and appends to the output vector exactly the tags, in document
order and each as the whole string from `<` to `>`, interleaved at their positions with
the contents that the condition of source line 179 does not drop. -/
theorem tokenizeHTML_tags_and_contents (t1 : Str) (segs : List (Str × Str))
    (out : List Str) (ht1 : IsTagString t1)
    (hsegs : ∀ p ∈ segs, IsContentRun p.1 ∧ IsTagString p.2)
    (hlen : (t1 ++ segmentsText segs).length < UINT) :
    tokenizeHTML (t1 ++ segmentsText segs) out =
      .ok (out ++ t1 :: segmentsTokens segs) := by
  obtain ⟨body, ht, hbody⟩ := ht1
  subst ht
  rw [tokenizeHTML_eq_scan _ _ hlen, scan_tag body hbody, scan_segments segs hsegs]
  simp

/-- The amended statement of C6 at `<ul> <li>a b</li>\t\t</ul>`, appended after one
earlier token:
the single space is dropped, `a b` and the two tabs are kept. -/
theorem tokenizeHTML_tags_and_contents_witness :
    tokenizeHTML "<ul> <li>a b</li>\t\t</ul>".toList ["<p>".toList] =
      .ok ["<p>".toList, "<ul>".toList, "<li>".toList, "a b".toList, "</li>".toList,
        "\t\t".toList, "</ul>".toList] :=
  tokenizeHTML_tags_and_contents "<ul>".toList
    [(" ".toList, "<li>".toList), ("a b".toList, "</li>".toList),
      ("\t\t".toList, "</ul>".toList)]
    ["<p>".toList] ⟨"ul".toList, by decide, by decide⟩
    (by
      intro p hp
      simp only [List.mem_cons, List.mem_singleton, List.not_mem_nil, or_false] at hp
      rcases hp with h | h | h <;> subst h
      · exact ⟨by unfold IsContentRun; decide, "li".toList, by decide, by decide⟩
      · exact ⟨by unfold IsContentRun; decide, "/li".toList, by decide, by decide⟩
      · exact ⟨by unfold IsContentRun; decide, "/ul".toList, by decide, by decide⟩)
    (by decide)

/-! ## C7: content tokens made of tabs -/

/-- C7 (failing input): the two tabs between the tags of `<p>\t\t</p>` are emitted as a
token although both characters are word separators; `isBlank` only looks for spaces and
the word-separator test of source line 179 only applies to one-character tokens. -/
theorem tokenizeHTML_emits_tab_token :
    tokenizeHTML "<p>\t\t</p>".toList [] =
        .ok ["<p>".toList, "\t\t".toList, "</p>".toList] ∧
      (∀ c ∈ "\t\t".toList, isWordSeparator c = true) ∧
      keepsContent "\t\t".toList = true ∧ keepsContent "\t".toList = false ∧
      keepsContent "  ".toList = false := by
  decide

/-! ## C9, C10: the trimmed name of open and close tokens -/

/-- C9 (failing input): `<p >` is not accepted as an open tag, whatever the file. The
backward trimming loop of `isTagOpen` starts on the final `>` and stops at once, so the
name handed to `validateTag` is `p ` with its trailing space: the token `<p >` goes to
`displayErrorMessage` with the unknown-tag reason (when that call returns, `isTagOpen`
returns false), and on a file with the line `<p >` the unknown-tag failure is raised.
Whitespace before the name is trimmed as documented. -/
theorem isTagOpen_trailing_space :
    (∀ file : FileView, isTagOpen file "<p >".toList =
        (displayErrorMessage file "<p >".toList unknownTagReason).bind
          (fun _ => .ok false)) ∧
      (∀ file : FileView, isTagOpen file "<p >".toList ≠ .ok true) ∧
      isTagOpen (some ["<p >".toList]) "<p >".toList =
        .error (.report "<p >".toList unknownTagReason) ∧
      (∀ file : FileView, isTagOpen file "< p>".toList = .ok true) ∧
      (∀ file : FileView, isTagEmpty file "<br />".toList = .ok true) := by
  have h : ∀ file : FileView, isTagOpen file "<p >".toList =
      (displayErrorMessage file "<p >".toList unknownTagReason).bind
        (fun _ => .ok false) :=
    fun file => (@isTagOpen_shaped file "p ".toList).trans rfl
  refine ⟨h, fun file hcon => ?_, by decide, fun _ => rfl, fun _ => rfl⟩
  rw [h file] at hcon
  cases hd : displayErrorMessage file "<p >".toList unknownTagReason with
  | error e => rw [hd] at hcon; cases hcon
  | ok u => rw [hd] at hcon; cases hcon

theorem dropWhile_separators_append (w rest : Str)
    (hw : ∀ c ∈ w, isWordSeparator c = true) :
    (w ++ rest).dropWhile isWordSeparator = rest.dropWhile isWordSeparator := by
  induction w with
  | nil => rfl
  | cons a t ih =>
    have ha : isWordSeparator a = true := hw a (by simp)
    simp only [List.cons_append, List.dropWhile, ha]
    exact ih (fun c hc => hw c (by simp [hc]))

theorem dropWhile_grammar_append (n rest : Str) (hn : n ∈ grammarTags) :
    (n ++ rest).dropWhile isWordSeparator = n ++ rest := by
  have hsep := isWordSeparator_grammar n hn
  cases n with
  | nil => exact absurd hn (by decide)
  | cons a t =>
    have ha : isWordSeparator a = false := hsep a (by simp)
    simp [List.dropWhile, ha]

/-- The part of C9 that holds, and the defect in general: with a vocabulary name `n` and
a run `w1` of word separators before it, `<w1 n>` is an open tag; as soon as a non-empty
run `w2` of word separators follows the name, `isTagOpen` hands the name with its trailing
separators to `displayErrorMessage` with the unknown-tag reason and returns false when
that call returns. -/
theorem isTagOpen_surrounding_whitespace (n w1 w2 : Str) (hn : n ∈ grammarTags)
    (h1 : ∀ c ∈ w1, isWordSeparator c = true) (h2 : ∀ c ∈ w2, isWordSeparator c = true) :
    isTagOpen file ('<' :: (w1 ++ n ++ w2 ++ ['>'])) =
      if w2 = [] then .ok true
      else (displayErrorMessage file ('<' :: (n ++ w2 ++ ['>'])) unknownTagReason).bind
        (fun _ => .ok false) := by
  have hsep := isWordSeparator_grammar n hn
  have hns : ∀ c ∈ w1 ++ n ++ w2, c ≠ '/' := by
    intro c hc hslash
    subst hslash
    simp only [List.mem_append] at hc
    rcases hc with (hc | hc) | hc
    · have := h1 _ hc; revert this; decide
    · have := hsep _ hc; simp only [grammarTags, List.mem_cons, List.mem_singleton,
        List.not_mem_nil, or_false] at hn
      rcases hn with h | h | h | h | h | h | h | h | h | h <;> subst h <;> revert hc <;> decide
    · have := h2 _ hc; revert this; decide
  have hlast : (w1 ++ n ++ w2).getLast? ≠ some '/' := by
    intro h
    exact hns _ (List.mem_of_getLast?_eq_some h) rfl
  have hhead : (w1 ++ n ++ w2).head? ≠ some '/' := by
    intro h
    exact hns _ (List.mem_of_mem_head? h) rfl
  have hdrop : (w1 ++ n ++ w2).dropWhile isWordSeparator = n ++ w2 := by
    rw [List.append_assoc, dropWhile_separators_append w1 _ h1, dropWhile_grammar_append n w2 hn]
  have hshape := @isTagOpen_shaped file (w1 ++ n ++ w2)
  rw [if_neg (not_or.mpr ⟨hlast, hhead⟩), hdrop] at hshape
  rw [hshape]
  by_cases hw : w2 = []
  · subst hw
    simp [hn]
  · have hnot : n ++ w2 ∉ grammarTags := by
      intro hmem
      obtain ⟨x, t, hx⟩ := List.exists_cons_of_ne_nil hw
      have := isWordSeparator_grammar _ hmem x (by rw [hx]; simp)
      rw [h2 x (by rw [hx]; simp)] at this
      cases this
    simp [hw, hnot]

/-- C10 (failing input): `isTagClose` hands `isTagName` the interior without its last
character (`substr(start, end - start)` with `end` the index of that character), so
`</p!>` is accepted because `p` is a name, and for `</p>` the name is empty and
`isTagName` reads `s[-1]`. -/
theorem isTagClose_drops_last_character :
    isTagClose "</p!>".toList = .ok true ∧ isTagName "p!".toList = .ok false ∧
      isTagClose "</p>".toList = .error .outOfBounds ∧
      isTagClose "</html>".toList = .ok true := by
  decide

/-- The defect behind C1, C2 and C10 in general: for a close token `</n>` whose name
`n = m ++ [z]` neither starts nor ends with a word separator and does not end with `/`,
`isTagClose` returns what `isTagName` says about `m`, the name without its last
character. -/
theorem isTagClose_plain_name (m : Str) (z : Char)
    (hfirst : isWordSeparator ((m ++ [z]).headD (Char.ofNat 0)) = false)
    (hz : isWordSeparator z = false) (hslash : z ≠ '/') :
    isTagClose ('<' :: '/' :: (m ++ [z] ++ ['>'])) = isTagName m := by
  have e0 : '<' :: '/' :: (m ++ [z] ++ ['>']) = ('<' :: '/' :: m) ++ [z, '>'] := by simp
  have hl1 : readAt ('<' :: '/' :: (m ++ [z] ++ ['>']))
      ((('<' :: '/' :: (m ++ [z] ++ ['>'])).length : Int) - 1) = .ok '>' := by
    have h := readAt_last ('<' :: '/' :: (m ++ [z])) '>'
    simpa using h
  have hl2 : readAt ('<' :: '/' :: (m ++ [z] ++ ['>']))
      ((('<' :: '/' :: (m ++ [z] ++ ['>'])).length : Int) - 2) = .ok z := by
    have h := readAt_last2 ('<' :: '/' :: m) z '>'
    rw [← e0] at h
    exact h
  have hfw : skipForward ('<' :: '/' :: (m ++ [z] ++ ['>']))
      (('<' :: '/' :: (m ++ [z] ++ ['>'])).length + 1) 2 = .ok 2 := by
    have h := skipForward_spec [] (m ++ [z] ++ ['>']) (fun c hc => by simp at hc)
      (by
        have : (m ++ [z] ++ ['>']).headD (Char.ofNat 0) = (m ++ [z]).headD (Char.ofNat 0) := by
          cases m <;> rfl
        rw [this]; exact hfirst)
      ['<', '/'] (('<' :: '/' :: (m ++ [z] ++ ['>'])).length + 1) (by simp)
    simpa using h
  have hbw : skipBackward ('<' :: '/' :: (m ++ [z] ++ ['>']))
      (('<' :: '/' :: (m ++ [z] ++ ['>'])).length + 1)
      ((('<' :: '/' :: (m ++ [z] ++ ['>'])).length : Int) - 2) =
      .ok ((('<' :: '/' :: (m ++ [z] ++ ['>'])).length : Int) - 2) :=
    skipBackward_stop _ _ _ z hl2 hz
  have hsub : substr ('<' :: '/' :: (m ++ [z] ++ ['>'])) 2
      ((('<' :: '/' :: (m ++ [z] ++ ['>'])).length : Int) - 2 - 2) = .ok m := by
    have e : ((('<' :: '/' :: (m ++ [z] ++ ['>'])).length : Int) - 2 - 2) = (m.length : Int) := by
      simp only [List.length_cons, List.length_append, List.length_nil]
      push_cast
      omega
    have h := substr_nat ('<' :: '/' :: (m ++ [z] ++ ['>'])) 2 m.length (by simp)
    rw [e]
    simpa using h
  have hzs : (z == '/') = false := by simpa using hslash
  unfold isTagClose
  simp only [readAt_zero, readAt_one, hl1, hl2, hfw, hbw, hsub, bind, Except.bind, pure,
    Except.pure, List.headD_cons, hzs]
  simp

/-! ## C1, C2: documents with a close tag of a one-letter name -/

/-- C1 (failing input): the correctly nested document of the specification is not
reported valid, whatever the file holds when it is read again: classifying its token
`</p>` makes `isTagName` read outside the empty string. The same document without the
paragraph is valid. -/
theorem nested_document_with_p_not_valid :
    tokenizeHTML "<html><head></head><body><p>text</p></body></html>".toList [] =
        .ok ["<html>".toList, "<head>".toList, "</head>".toList, "<body>".toList,
          "<p>".toList, "text".toList, "</p>".toList, "</body>".toList,
          "</html>".toList] ∧
      (∀ file : FileView,
        validateContents file "<html><head></head><body><p>text</p></body></html>".toList =
          .error .outOfBounds) ∧
      (∀ file : FileView,
        validateContents file "<html><head></head><body>text</body></html>".toList =
          .ok true) :=
  ⟨by decide, fun _ => rfl, fun _ => rfl⟩

/-- When no open tag is pending and the next token is classified as a close tag, that
token is handed to `displayErrorMessage` with the reason "no open tags left to close"
(source line 223); when the call returns, line 226 reads the top of the empty stack. -/
theorem orphan_close_outcome (pre post : List Str) (c : Str)
    (hpre : validateLoop file pre [] = .ok []) (hclose : isTagClose c = .ok true) :
    validateHTML file (pre ++ c :: post) =
      (displayErrorMessage file c "no open tags left to close".toList).bind
        (fun _ => .error .outOfBounds) := by
  obtain ⟨mid, hmid⟩ := isTagClose_true_shape c hclose
  have hopen : isTagOpen file c = .ok false := by rw [hmid]; exact isTagOpen_close_shaped mid
  have hloop : validateLoop file (pre ++ c :: post) [] =
      (displayErrorMessage file c "no open tags left to close".toList).bind
        (fun _ => .error .outOfBounds) := by
    rw [validateLoop_append, hpre]
    simp only [Except.bind]
    exact validateLoop_orphan c post hopen hclose
  cases hd : displayErrorMessage file c "no open tags left to close".toList with
  | error e =>
    rw [hd] at hloop
    exact validateHTML_of_loop_error _ _ hloop
  | ok u =>
    rw [hd] at hloop
    exact validateHTML_of_loop_error _ _ hloop

/-- When, in addition, the close token can be read off one line of the file, the run fails
with the reason "no open tags left to close", citing that token. -/
theorem orphan_close_reported (pre post : List Str) (c : Str)
    (hpre : validateLoop file pre [] = .ok []) (hclose : isTagClose c = .ok true)
    (hfound : FoundInOneLine file c) :
    validateHTML file (pre ++ c :: post) =
      .error (.report c "no open tags left to close".toList) := by
  obtain ⟨mid, hmid⟩ := isTagClose_true_shape c hclose
  rw [orphan_close_outcome pre post c hpre hclose,
    displayErrorMessage_found c _ (by rw [hmid]; simp) hfound]
  rfl

/-- C2 (failing input): the text `</p>` is not reported as an orphan close, whatever the
file holds when it is read again; classifying `</p>` makes `isTagName` read outside the
empty string before the stack is consulted. A close tag with a longer name, such as
`</ul>` in the one-line file `</ul>`, is reported as the claim says. -/
theorem orphan_close_p_not_reported :
    tokenizeHTML "</p>".toList [] = .ok ["</p>".toList] ∧
      (∀ file : FileView, validateContents file "</p>".toList = .error .outOfBounds) ∧
      validateFile ["</ul>".toList] =
        .error (.report "</ul>".toList "no open tags left to close".toList) :=
  ⟨by decide, fun _ => rfl, by decide⟩

/-! ## C15: the first violation ends the run -/

/-- C15: when the loop of `validateHTML` over the tokens `p` ends in a failure (for a
report this is the unknown-tag, orphan-close or mismatched-close error with its cited
token), `validateHTML (p ++ q)` ends in exactly the same failure, whatever `q` is. -/
theorem validateHTML_fail_fast (p q : List Str) (e : Failure)
    (h : validateLoop file p [] = .error e) : validateHTML file (p ++ q) = .error e := by
  apply validateHTML_of_loop_error
  rw [validateLoop_append, h]
  rfl

/-- The statement of C15 for the three kinds of error, each followed by tokens that
would be valid or would raise another error on their own; the file is the one line in
which the tokens follow one another. -/
theorem validateHTML_fail_fast_witness :
    validateHTML (some ["<div></ul>".toList]) (["<div>".toList] ++ ["</ul>".toList]) =
        .error (.report "<div>".toList unknownTagReason) ∧
      validateHTML (some ["<ul></ul></li><div>".toList])
          (["<ul>".toList, "</ul>".toList, "</li>".toList] ++ ["<div>".toList]) =
        .error (.report "</li>".toList "no open tags left to close".toList) ∧
      validateHTML (some ["<ul></li><ul></ul>".toList])
          (["<ul>".toList, "</li>".toList] ++ ["<ul>".toList, "</ul>".toList]) =
        .error (.report "</li>".toList
          ("no matching opening tag. Should close ".toList ++ "<ul>".toList)) :=
  ⟨validateHTML_fail_fast _ _ _ (by decide), validateHTML_fail_fast _ _ _ (by decide),
    validateHTML_fail_fast _ _ _ (by decide)⟩

/-! ## C16: the vocabulary -/

/-- C16 (failing input): the claim fails in its second half. `validateTag` returns true exactly for the ten names
`html`, `head`, `body`, `p`, `br`, `li`, `h1`, `h2`, `ul`, `ol` (exact, case-sensitive
match), whatever the file. For every other string it hands the string between `<` and
`>` to `displayErrorMessage` with the reason "is not a valid HTML tag (in the given
grammar)", and when that call returns it returns false where the claim has it raise the
failure: so for `div` on the file whose two lines are `<di` and `v>`. On a file in which
the cited tag stands in one line the failure is raised, as for `HTML`, `div`, the empty
string and ` p `. -/
theorem validateTag_returns_false_when_display_returns :
    grammarTags = ["html".toList, "head".toList, "body".toList, "p".toList, "br".toList,
        "li".toList, "h1".toList, "h2".toList, "ul".toList, "ol".toList] ∧
      (∀ (file : FileView) (name : Str),
        validateTag file name = .ok true ↔ name ∈ grammarTags) ∧
      (∀ (file : FileView) (name : Str), validateTag file name =
        if name ∈ grammarTags then .ok true
        else (displayErrorMessage file ('<' :: (name ++ ['>'])) unknownTagReason).bind
          (fun _ => .ok false)) ∧
      displayErrorMessage (some ["<di".toList, "v>".toList]) "<div>".toList
        unknownTagReason = .ok () ∧
      validateTag (some ["<di".toList, "v>".toList]) "div".toList = .ok false ∧
      validateTag (some ["<HTML>".toList]) "HTML".toList =
        .error (.report "<HTML>".toList unknownTagReason) ∧
      validateTag (some ["<div>".toList]) "div".toList =
        .error (.report "<div>".toList unknownTagReason) ∧
      validateTag (some ["<>".toList]) [] = .error (.report "<>".toList unknownTagReason) ∧
      validateTag (some ["< p >".toList]) " p ".toList =
        .error (.report "< p >".toList unknownTagReason) :=
  ⟨rfl, fun _ name => validateTag_true_iff name, fun _ name => validateTag_eq name,
    by decide, by decide, by decide, by decide, by decide, by decide⟩

/-! ## C12, C13, C17, C19: inputs on which the code departs from the claim -/

/-- C12 (failing input): `compareTags` compares the texts between the delimiters as they
stand, without trimming: the open token `< html>` (accepted by `isTagOpen`) and the
close token `</html>` (accepted by `isTagClose`) have the same name `html`, yet they
compare as different and the document `< html></html>` is reported as mismatched. The
tokens match only when the whitespace is repeated in the close token. -/
theorem compareTags_untrimmed :
    (∀ file : FileView, isTagOpen file "< html>".toList = .ok true) ∧
      isTagClose "</html>".toList = .ok true ∧
      openTagName "< html>".toList = closeTagName "</html>".toList ∧
      compareTags "< html>".toList "</html>".toList = .ok false ∧
      validateFile ["< html></html>".toList] =
        .error (.report "</html>".toList
          ("no matching opening tag. Should close ".toList ++ "< html>".toList)) ∧
      compareTags "< html>".toList "</ html>".toList = .ok true :=
  ⟨fun _ => rfl, by decide, by decide, by decide, by decide, by decide⟩

/-- C13 (failing input): `isCharData` tests `s[0]` in every iteration of its loop, so
a `<` after the first position is not seen: `a<b` is accepted as character data. -/
theorem isCharData_checks_first_character_only :
    isCharData "a<b".toList = .ok true ∧ '<' ∈ "a<b".toList ∧
      isCharData "<ab".toList = .ok false ∧ isCharData [] = .ok true := by
  decide

/-- C17 (failing input): content at the start of the text loses its first character.
The running counter starts at 0, so at the first `<` the span
`substr(i - tokenCount + 1, tokenCount - 1)` starts at index 1: `ab<p>` yields `b` and
`<p>`. Content after a delimiter is extracted whole. -/
theorem tokenizeHTML_leading_content_truncated :
    tokenizeHTML "ab<p>".toList [] = .ok ["b".toList, "<p>".toList] ∧
      tokenizeHTML "<p>ab<p>".toList [] = .ok ["<p>".toList, "ab".toList, "<p>".toList] := by
  decide

/-- C19 (failing input): `isTagName` applied to the empty string does not return false:
its length is not 1, so the else branch computes `last = -1` and reads `s[last]`,
outside the string. `isTagClose` reaches that call on `</p>`. -/
theorem isTagName_empty_reads_out_of_bounds :
    isTagName [] = .error .outOfBounds ∧ readAt [] (([] : Str).length - 1) = .error .outOfBounds ∧
      substr "</p>".toList 2 (2 - 2) = .ok [] ∧
      isTagClose "</p>".toList = .error .outOfBounds := by
  decide

/-! ## C18: close-shaped tokens and the vocabulary -/

theorem NoReport.ok {α : Type} (a : α) : NoReport (.ok a : Res α) := by
  intro _ _ h; cases h

theorem NoReport.bind {α β : Type} (r : Res α) (f : α → Res β) (hr : NoReport r)
    (hf : ∀ a, NoReport (f a)) : NoReport (r >>= f) := by
  cases r with
  | error e =>
    intro t m h
    have h1 : (Except.error e : Res β) = .error (.report t m) := h
    injection h1 with h2
    exact hr t m (by rw [h2])
  | ok a => exact hf a

theorem readAt_noReport (s : Str) (i : Int) : NoReport (readAt s i) := by
  unfold readAt
  split
  · intro _ _ h; cases h
  · exact NoReport.ok _

theorem substr_noReport (s : Str) (pos n : Int) : NoReport (substr s pos n) := by
  unfold substr
  split
  · intro _ _ h; cases h
  · split <;> exact NoReport.ok _

theorem skipForward_noReport (s : Str) : ∀ (fuel : Nat) (i : Int),
    NoReport (skipForward s fuel i) := by
  intro fuel
  induction fuel with
  | zero => intro i _ _ h; cases h
  | succ fuel ih =>
    intro i
    rw [skipForward]
    refine NoReport.bind _ _ (readAt_noReport s i) (fun c => ?_)
    split
    · exact ih _
    · exact NoReport.ok _

theorem skipBackward_noReport (s : Str) : ∀ (fuel : Nat) (i : Int),
    NoReport (skipBackward s fuel i) := by
  intro fuel
  induction fuel with
  | zero => intro i _ _ h; cases h
  | succ fuel ih =>
    intro i
    rw [skipBackward]
    refine NoReport.bind _ _ (readAt_noReport s i) (fun c => ?_)
    split
    · exact ih _
    · exact NoReport.ok _

theorem isTagNameAux_noReport : ∀ (fuel : Nat) (s : Str), NoReport (isTagNameAux fuel s) := by
  intro fuel
  induction fuel with
  | zero => intro s _ _ h; cases h
  | succ fuel ih =>
    intro s
    rw [isTagNameAux]
    split
    · refine NoReport.bind _ _ (readAt_noReport s 0) (fun c => ?_)
      split <;> exact NoReport.ok _
    · refine NoReport.bind _ _ (readAt_noReport s _) (fun c => ?_)
      split
      · exact NoReport.bind _ _ (substr_noReport s _ _) (fun sub => ih sub)
      · exact NoReport.ok _

theorem isTagName_noReport (s : Str) : NoReport (isTagName s) :=
  isTagNameAux_noReport _ s

theorem isTagClose_noReport (s : Str) : NoReport (isTagClose s) := by
  unfold isTagClose
  refine NoReport.bind _ _ (readAt_noReport s 0) (fun c0 => ?_)
  split
  · exact NoReport.ok _
  refine NoReport.bind _ _ (NoReport.ok _) (fun _ => ?_)
  refine NoReport.bind _ _ (readAt_noReport s 1) (fun c1 => ?_)
  split
  · exact NoReport.ok _
  refine NoReport.bind _ _ (NoReport.ok _) (fun _ => ?_)
  refine NoReport.bind _ _ (readAt_noReport s _) (fun c2 => ?_)
  split
  · exact NoReport.ok _
  refine NoReport.bind _ _ (NoReport.ok _) (fun _ => ?_)
  refine NoReport.bind _ _ (readAt_noReport s _) (fun c3 => ?_)
  split
  · exact NoReport.ok _
  refine NoReport.bind _ _ (NoReport.ok _) (fun _ => ?_)
  refine NoReport.bind _ _ (skipForward_noReport s _ _) (fun start => ?_)
  refine NoReport.bind _ _ (skipBackward_noReport s _ _) (fun last => ?_)
  exact NoReport.bind _ _ (substr_noReport s _ _) (fun name => isTagName_noReport name)

theorem isTagOpen_of_close_start (rest : Str) : isTagOpen file ('<' :: '/' :: rest) = .ok false := by
  induction rest using List.reverseRecOn with
  | nil => rfl
  | append_singleton m z _ =>
    by_cases hz : z = '>'
    · subst hz
      exact isTagOpen_close_shaped m
    · apply isTagOpen_not_shaped
      intro body hb
      have h1 : ('<' :: '/' :: (m ++ [z])).getLast? = ('<' :: (body ++ ['>'])).getLast? := by
        rw [hb]
      have e1 : '<' :: '/' :: (m ++ [z]) = ('<' :: '/' :: m) ++ [z] := by simp
      have e2 : '<' :: (body ++ ['>']) = ('<' :: body) ++ ['>'] := by simp
      rw [e1, e2, List.getLast?_append, List.getLast?_append] at h1
      simp at h1
      exact hz h1

/-- C18: a token that begins with `</` is never checked against the vocabulary. The
validator first calls `isTagOpen`, which returns false without reaching `validateTag`,
and then `isTagClose`, which never ends in a report of `displayErrorMessage` (it does not
call `validateTag`). So `</div>` is an ordinary close tag: an orphan close when nothing
is open (one-line file `</div>`), a mismatched close when `<ul>` is open (one-line file
`<ul></div>`). -/
theorem close_shaped_never_unknown_tag (rest : Str) :
    (∀ file : FileView, isTagOpen file ('<' :: '/' :: rest) = .ok false) ∧
      (∀ token reason,
        isTagClose ('<' :: '/' :: rest) ≠ .error (.report token reason)) ∧
      isTagClose "</div>".toList = .ok true ∧
      validateFile ["</div>".toList] =
        .error (.report "</div>".toList "no open tags left to close".toList) ∧
      validateFile ["<ul></div>".toList] =
        .error (.report "</div>".toList
          ("no matching opening tag. Should close ".toList ++ "<ul>".toList)) :=
  ⟨fun _ => isTagOpen_of_close_start rest, isTagClose_noReport _, by decide, by decide,
    by decide⟩

/-! ## `isTagEmpty` -/

theorem skipBackward_spec (x : Char) (hx : isWordSeparator x = false) (ws : Str) :
    (∀ c ∈ ws, isWordSeparator c = true) →
    ∀ (pre post : Str) (fuel : Nat), ws.length < fuel →
      skipBackward (pre ++ x :: ws ++ post) fuel ((pre.length : Int) + (ws.length : Int)) =
        .ok (pre.length : Int) := by
  induction ws using List.reverseRecOn with
  | nil =>
    intro _ pre post fuel hfuel
    cases fuel with
    | zero => simp at hfuel
    | succ fuel =>
      have hread : readAt (pre ++ x :: [] ++ post) (pre.length : Int) = .ok x := by
        have h := readAt_append_right pre (x :: post)
        simpa using h
      have e : (pre.length : Int) + (([] : Str).length : Int) = (pre.length : Int) := by simp
      rw [e]
      exact skipBackward_stop _ _ _ x hread hx
  | append_singleton ws w ih =>
    intro hws pre post fuel hfuel
    cases fuel with
    | zero => simp at hfuel
    | succ fuel =>
      have hw : isWordSeparator w = true := hws w (by simp)
      have e1 : pre ++ x :: (ws ++ [w]) ++ post = (pre ++ x :: ws) ++ (w :: post) := by simp
      have e2 : (pre.length : Int) + ((ws ++ [w]).length : Int) =
          ((pre ++ x :: ws).length : Int) := by
        simp only [List.length_append, List.length_cons, List.length_nil]
        push_cast
        omega
      have hread : readAt ((pre ++ x :: ws) ++ (w :: post)) ((pre ++ x :: ws).length : Int) =
          .ok w := by
        rw [readAt_append_right]; rfl
      rw [e1, e2, skipBackward]
      simp only [hread, bind, Except.bind, hw, if_true]
      have h := ih (fun c hc => hws c (by simp [hc])) pre (w :: post) fuel
        (by simp at hfuel; omega)
      have e3 : pre ++ x :: ws ++ w :: post = (pre ++ x :: ws) ++ (w :: post) := by simp
      have e4 : ((pre ++ x :: ws).length : Int) - 1 = (pre.length : Int) + (ws.length : Int) := by
        simp only [List.length_append, List.length_cons]
        push_cast
        omega
      rw [e3] at h
      rw [e4, h]

theorem headD_dropWhile_append (s : Str) (d : Char) (t : Str)
    (hd : isWordSeparator d = false) :
    isWordSeparator ((s.dropWhile isWordSeparator ++ d :: t).headD (Char.ofNat 0)) = false := by
  induction s with
  | nil => simpa using hd
  | cons a r ih =>
    by_cases h : isWordSeparator a = true
    · simpa [List.dropWhile, h] using ih
    · simp [List.dropWhile, h]

/-- `isTagEmpty` on `<w1 core w2/>` where `w1` and `w2` are runs of word separators and
`core` neither starts nor ends with one: the name handed to `validateTag` is `core`. -/
theorem isTagEmpty_trimmed (w1 core0 w2 : Str) (x : Char)
    (h1 : ∀ c ∈ w1, isWordSeparator c = true) (h2 : ∀ c ∈ w2, isWordSeparator c = true)
    (hhead : isWordSeparator ((core0 ++ [x]).headD (Char.ofNat 0)) = false)
    (hx : isWordSeparator x = false) :
    isTagEmpty file ('<' :: (w1 ++ (core0 ++ [x]) ++ w2 ++ ['/', '>'])) =
      if core0 ++ [x] ∈ grammarTags then .ok true
      else (displayErrorMessage file ('<' :: (core0 ++ [x] ++ ['>'])) unknownTagReason).bind
        (fun _ => .ok false) := by
  have hl1 : readAt ('<' :: (w1 ++ (core0 ++ [x]) ++ w2 ++ ['/', '>']))
      ((('<' :: (w1 ++ (core0 ++ [x]) ++ w2 ++ ['/', '>'])).length : Int) - 1) = .ok '>' := by
    have h := readAt_last ('<' :: (w1 ++ (core0 ++ [x]) ++ w2 ++ ['/'])) '>'
    simpa using h
  have hl2 : readAt ('<' :: (w1 ++ (core0 ++ [x]) ++ w2 ++ ['/', '>']))
      ((('<' :: (w1 ++ (core0 ++ [x]) ++ w2 ++ ['/', '>'])).length : Int) - 2) = .ok '/' := by
    have h := readAt_last2 ('<' :: (w1 ++ (core0 ++ [x]) ++ w2)) '/' '>'
    simpa using h
  have hfw : skipForward ('<' :: (w1 ++ (core0 ++ [x]) ++ w2 ++ ['/', '>']))
      (('<' :: (w1 ++ (core0 ++ [x]) ++ w2 ++ ['/', '>'])).length + 1) 1 =
      .ok (1 + (w1.length : Int)) := by
    have h := skipForward_spec w1 ((core0 ++ [x]) ++ w2 ++ ['/', '>']) h1
      (by
        have : ((core0 ++ [x]) ++ w2 ++ ['/', '>']).headD (Char.ofNat 0) =
            (core0 ++ [x]).headD (Char.ofNat 0) := by
          cases core0 <;> rfl
        rw [this]; exact hhead)
      ['<'] (('<' :: (w1 ++ (core0 ++ [x]) ++ w2 ++ ['/', '>'])).length + 1)
      (by simp; omega)
    have e : ['<'] ++ w1 ++ ((core0 ++ [x]) ++ w2 ++ ['/', '>']) =
        '<' :: (w1 ++ (core0 ++ [x]) ++ w2 ++ ['/', '>']) := by simp
    rw [e] at h
    simpa using h
  have hbw : skipBackward ('<' :: (w1 ++ (core0 ++ [x]) ++ w2 ++ ['/', '>']))
      (('<' :: (w1 ++ (core0 ++ [x]) ++ w2 ++ ['/', '>'])).length + 1)
      ((('<' :: (w1 ++ (core0 ++ [x]) ++ w2 ++ ['/', '>'])).length : Int) - 3) =
      .ok (1 + (w1.length : Int) + (core0.length : Int)) := by
    have h := skipBackward_spec x hx w2 h2 ('<' :: (w1 ++ core0)) ['/', '>']
      (('<' :: (w1 ++ (core0 ++ [x]) ++ w2 ++ ['/', '>'])).length + 1) (by simp; omega)
    have e : '<' :: (w1 ++ core0) ++ x :: w2 ++ ['/', '>'] =
        '<' :: (w1 ++ (core0 ++ [x]) ++ w2 ++ ['/', '>']) := by simp
    have e2 : ((('<' :: (w1 ++ core0)).length : Nat) : Int) + (w2.length : Int) =
        ((('<' :: (w1 ++ (core0 ++ [x]) ++ w2 ++ ['/', '>'])).length : Int) - 3) := by
      simp only [List.length_append, List.length_cons, List.length_nil]
      push_cast
      omega
    have e3 : ((('<' :: (w1 ++ core0)).length : Nat) : Int) =
        1 + (w1.length : Int) + (core0.length : Int) := by
      simp only [List.length_append, List.length_cons]
      push_cast
      omega
    rw [e, e2, e3] at h
    exact h
  have hsub : substr ('<' :: (w1 ++ (core0 ++ [x]) ++ w2 ++ ['/', '>']))
      (1 + (w1.length : Int))
      (1 + (w1.length : Int) + (core0.length : Int) - (1 + (w1.length : Int)) + 1) =
      .ok (core0 ++ [x]) := by
    have e1 : (1 + (w1.length : Int)) = ((('<' :: w1).length : Nat) : Int) := by
      simp only [List.length_cons]; push_cast; omega
    have e2 : (1 + (w1.length : Int) + (core0.length : Int) - (1 + (w1.length : Int)) + 1) =
        (((core0 ++ [x]).length : Nat) : Int) := by
      simp only [List.length_append, List.length_cons, List.length_nil]; push_cast; omega
    have e3 : '<' :: (w1 ++ (core0 ++ [x]) ++ w2 ++ ['/', '>']) =
        ('<' :: w1) ++ ((core0 ++ [x]) ++ (w2 ++ ['/', '>'])) := by simp
    rw [e2, e1, e3, substr_nat _ _ _ (by simp), List.drop_left, List.take_left]
  unfold isTagEmpty
  simp only [List.isEmpty_cons, Bool.false_eq_true, if_false, readAt_zero, hl1, hl2, hfw,
    hbw, hsub, bind, Except.bind, pure, Except.pure, List.headD_cons, validateTag_eq]
  by_cases hmem : core0 ++ [x] ∈ grammarTags
  · simp [hmem, isTagName_grammar _ hmem]
  · simp only [hmem, if_false]
    cases displayErrorMessage file ('<' :: (core0 ++ [x] ++ ['>'])) unknownTagReason with
    | error e => rfl
    | ok u => rfl

/-- `isTagEmpty` on `<w/>` where `w` is a (possibly empty) run of word separators: the
name handed to `validateTag` is empty, or `/>` when the backward loop has crossed the
forward one; it goes to `displayErrorMessage` with the unknown-tag reason, and when that
call returns `isTagEmpty` returns false. -/
theorem isTagEmpty_blank (w : Str) (hw : ∀ c ∈ w, isWordSeparator c = true) :
    isTagEmpty file ('<' :: (w ++ ['/', '>'])) =
      (displayErrorMessage file (if w = [] then ['<', '>'] else ['<', '/', '>', '>'])
        unknownTagReason).bind (fun _ => .ok false) := by
  have hl1 : readAt ('<' :: (w ++ ['/', '>'])) ((('<' :: (w ++ ['/', '>'])).length : Int) - 1)
      = .ok '>' := by
    have h := readAt_last ('<' :: (w ++ ['/'])) '>'
    simpa using h
  have hl2 : readAt ('<' :: (w ++ ['/', '>'])) ((('<' :: (w ++ ['/', '>'])).length : Int) - 2)
      = .ok '/' := by
    have h := readAt_last2 ('<' :: w) '/' '>'
    simpa using h
  have hfw : skipForward ('<' :: (w ++ ['/', '>'])) (('<' :: (w ++ ['/', '>'])).length + 1) 1 =
      .ok (1 + (w.length : Int)) := by
    have h := skipForward_spec w ['/', '>'] hw (by decide) ['<']
      (('<' :: (w ++ ['/', '>'])).length + 1) (by simp; omega)
    simpa using h
  have hbw : skipBackward ('<' :: (w ++ ['/', '>'])) (('<' :: (w ++ ['/', '>'])).length + 1)
      ((('<' :: (w ++ ['/', '>'])).length : Int) - 3) = .ok 0 := by
    have h := skipBackward_spec '<' (by decide) w hw [] ['/', '>']
      (('<' :: (w ++ ['/', '>'])).length + 1) (by simp; omega)
    have e2 : ((([] : Str).length : Nat) : Int) + (w.length : Int) =
        ((('<' :: (w ++ ['/', '>'])).length : Int) - 3) := by
      simp only [List.length_append, List.length_cons, List.length_nil]
      push_cast
      omega
    rw [e2] at h
    simpa using h
  have hsub : substr ('<' :: (w ++ ['/', '>'])) (1 + (w.length : Int))
      (0 - (1 + (w.length : Int)) + 1) =
      .ok (if w = [] then [] else ['/', '>']) := by
    by_cases hnil : w = []
    · subst hnil
      decide
    · have hpos : 0 < w.length := List.length_pos.mpr hnil
      unfold substr
      have c1 : ¬ ((1 + (w.length : Int)) < 0 ∨
          ((('<' :: (w ++ ['/', '>'])).length : Nat) : Int) < (1 + (w.length : Int))) := by
        simp only [List.length_append, List.length_cons, List.length_nil]
        push_cast
        omega
      have c2 : (0 - (1 + (w.length : Int)) + 1) < 0 := by omega
      have c3 : (1 + (w.length : Int)).toNat = ('<' :: w).length := by
        simp only [List.length_cons]; omega
      have e3 : '<' :: (w ++ ['/', '>']) = ('<' :: w) ++ ['/', '>'] := by simp
      rw [if_neg c1, if_pos c2, c3, if_neg hnil, e3, List.drop_left]
  unfold isTagEmpty
  simp only [List.isEmpty_cons, Bool.false_eq_true, if_false, readAt_zero, hl1, hl2, hfw,
    hbw, hsub, bind, Except.bind, pure, Except.pure, List.headD_cons, validateTag_eq]
  have hnot0 : ([] : Str) ∉ grammarTags := by decide
  have hnot : (['/', '>'] : Str) ∉ grammarTags := by decide
  by_cases hnil : w = []
  · subst hnil
    simp only [if_true, hnot0, if_false, List.nil_append]
    cases displayErrorMessage file ['<', '>'] unknownTagReason with
    | error e => rfl
    | ok u => rfl
  · simp only [hnil, if_false, hnot, List.cons_append, List.nil_append]
    cases displayErrorMessage file ['<', '/', '>', '>'] unknownTagReason with
    | error e => rfl
    | ok u => rfl

theorem head_eq_headD_of_ne_nil (l : Str) (h : l ≠ []) (d : Char) : l.head h = l.headD d := by
  cases l with
  | nil => exact absurd rfl h
  | cons a t => rfl

theorem trimSeparators_cases (interior : Str) :
    ((∀ c ∈ interior, isWordSeparator c = true) ∧ trimSeparators interior = []) ∨
      ∃ (w1 core0 : Str) (x : Char) (w2 : Str),
        interior = w1 ++ (core0 ++ [x]) ++ w2 ∧
        (∀ c ∈ w1, isWordSeparator c = true) ∧ (∀ c ∈ w2, isWordSeparator c = true) ∧
        isWordSeparator ((core0 ++ [x]).headD (Char.ofNat 0)) = false ∧
        isWordSeparator x = false ∧ trimSeparators interior = core0 ++ [x] := by
  have hsplit : interior.takeWhile isWordSeparator ++ interior.dropWhile isWordSeparator =
      interior := List.takeWhile_append_dropWhile _ _
  by_cases hd : interior.dropWhile isWordSeparator = []
  · left
    constructor
    · intro c hc
      rw [← hsplit, hd, List.append_nil] at hc
      exact List.mem_takeWhile_imp hc
    · simp [trimSeparators, hd]
  · right
    have hhead := List.head_dropWhile_not isWordSeparator interior hd
    have hrsplit : (interior.dropWhile isWordSeparator).reverse.takeWhile isWordSeparator ++
        (interior.dropWhile isWordSeparator).reverse.dropWhile isWordSeparator =
        (interior.dropWhile isWordSeparator).reverse := List.takeWhile_append_dropWhile _ _
    have hr : (interior.dropWhile isWordSeparator).reverse.dropWhile isWordSeparator ≠ [] := by
      intro hnil
      rw [hnil, List.append_nil] at hrsplit
      have hmem : (interior.dropWhile isWordSeparator).head hd ∈
          (interior.dropWhile isWordSeparator).reverse.takeWhile isWordSeparator := by
        rw [hrsplit]
        exact List.mem_reverse.mpr (List.head_mem hd)
      have := List.mem_takeWhile_imp hmem
      rw [hhead] at this
      cases this
    have hx := List.head_dropWhile_not isWordSeparator _ hr
    obtain ⟨x, r, hxr⟩ := List.exists_cons_of_ne_nil hr
    have hxsep : isWordSeparator x = false := by
      simpa [hxr] using hx
    have hd2 : interior.dropWhile isWordSeparator =
        (r.reverse ++ [x]) ++
          ((interior.dropWhile isWordSeparator).reverse.takeWhile isWordSeparator).reverse := by
      have h := congrArg List.reverse hrsplit
      rw [List.reverse_append, List.reverse_reverse, hxr] at h
      simpa using h.symm
    refine ⟨interior.takeWhile isWordSeparator, r.reverse, x,
      ((interior.dropWhile isWordSeparator).reverse.takeWhile isWordSeparator).reverse,
      ?_, ?_, ?_, ?_, hxsep, ?_⟩
    · rw [List.append_assoc, ← hd2, hsplit]
    · intro c hc
      exact List.mem_takeWhile_imp hc
    · intro c hc
      exact List.mem_takeWhile_imp (List.mem_reverse.mp hc)
    · have hh : (r.reverse ++ [x]).headD (Char.ofNat 0) =
          (interior.dropWhile isWordSeparator).head hd := by
        rw [head_eq_headD_of_ne_nil _ hd (Char.ofNat 0)]
        conv_rhs => rw [hd2]
        cases hrr : r.reverse with
        | nil => simp
        | cons a t => simp
      rw [hh]
      exact hhead
    · simp [trimSeparators, hxr]

theorem isTagEmpty_true_shape (s : Str) (h : isTagEmpty file s = .ok true) :
    ∃ interior, s = '<' :: (interior ++ ['/', '>']) := by
  cases s with
  | nil =>
    have h0 : isTagEmpty file [] = .ok false := rfl
    rw [h0] at h
    cases h
  | cons a r =>
    by_cases ha : a = '<'
    · subst ha
      induction r using List.reverseRecOn with
      | nil =>
        have h0 : isTagEmpty file ['<'] = .error .outOfBounds := rfl
        rw [h0] at h
        cases h
      | append_singleton r1 z _ =>
        induction r1 using List.reverseRecOn with
        | nil =>
          exfalso
          have hidx : (((['<', z] : Str).length : Int) - 2) = 0 := by simp
          unfold isTagEmpty at h
          simp only [List.nil_append, List.isEmpty_cons, Bool.false_eq_true, if_false,
            hidx, readAt_zero, bind, Except.bind, pure, Except.pure, List.headD_cons] at h
          simp at h
        | append_singleton m y _ =>
          have e : '<' :: (m ++ [y] ++ [z]) = ('<' :: m) ++ [y, z] := by simp
          have hl2 := readAt_last2 ('<' :: m) y z
          have hl1 : readAt (('<' :: m) ++ [y, z]) (((('<' :: m) ++ [y, z]).length : Int) - 1)
              = .ok z := by
            have h1 := readAt_last (('<' :: m) ++ [y]) z
            simpa using h1
          rw [e] at h
          unfold isTagEmpty at h
          simp only [List.cons_append, List.isEmpty_cons, Bool.false_eq_true, if_false,
            readAt_zero, bind, Except.bind, pure, Except.pure, List.headD_cons] at h
          simp only [List.cons_append] at hl1 hl2
          rw [hl2] at h
          simp only at h
          by_cases hy : y = '/'
          · subst hy
            rw [hl1] at h
            by_cases hz : z = '>'
            · subst hz
              exact ⟨m, by simp⟩
            · exfalso
              simp [hz] at h
          · exfalso
            simp [hy] at h
    · exfalso
      unfold isTagEmpty at h
      simp [readAt_zero, ha, bind, Except.bind, pure, Except.pure] at h

theorem isTagEmpty_true_iff (s : Str) :
    isTagEmpty file s = .ok true ↔
      ∃ interior, s = '<' :: (interior ++ ['/', '>']) ∧
        trimSeparators interior ∈ grammarTags := by
  constructor
  · intro h
    obtain ⟨interior, hs⟩ := isTagEmpty_true_shape s h
    refine ⟨interior, hs, ?_⟩
    subst hs
    rcases trimSeparators_cases interior with ⟨hall, _⟩ | ⟨w1, core0, x, w2, hi, h1, h2, hh, hx, ht⟩
    · rw [isTagEmpty_blank interior hall] at h
      cases hd : displayErrorMessage file
          (if interior = [] then ['<', '>'] else ['<', '/', '>', '>']) unknownTagReason with
      | error e => rw [hd] at h; cases h
      | ok u => rw [hd] at h; cases h
    · rw [hi, isTagEmpty_trimmed w1 core0 w2 x h1 h2 hh hx] at h
      rw [ht]
      by_contra hmem
      rw [if_neg hmem] at h
      cases hd : displayErrorMessage file ('<' :: (core0 ++ [x] ++ ['>'])) unknownTagReason with
      | error e => rw [hd] at h; cases h
      | ok u => rw [hd] at h; cases h
  · rintro ⟨interior, hs, hmem⟩
    subst hs
    rcases trimSeparators_cases interior with ⟨_, ht⟩ | ⟨w1, core0, x, w2, hi, h1, h2, hh, hx, ht⟩
    · rw [ht] at hmem
      exact absurd hmem (by decide)
    · rw [ht] at hmem
      rw [hi, isTagEmpty_trimmed w1 core0 w2 x h1 h2 hh hx, if_pos hmem]

theorem content_not_open_not_close (x : Str)
    (h : x.all (fun c => c != '<' && c != '>') = true) :
    isTagOpen file x = .ok false ∧ isTagClose x = .ok false := by
  have hno : '<' ∉ x := by
    intro hmem
    have := List.all_eq_true.mp h '<' hmem
    revert this
    decide
  constructor
  · apply isTagOpen_not_shaped
    intro body hb
    exact hno (by rw [hb]; simp)
  · apply isTagClose_not_shaped
    intro mid hb
    exact hno (by rw [hb]; simp)

theorem interior_head_of_trim_grammar (interior : Str)
    (h : trimSeparators interior ∈ grammarTags) :
    ∃ c t, interior = c :: t ∧ c ≠ '/' := by
  rcases trimSeparators_cases interior with ⟨_, ht⟩ | ⟨w1, core0, x, w2, hi, h1, _, _, _, ht⟩
  · rw [ht] at h
    exact absurd h (by decide)
  · rw [ht] at h
    have hcore := isWordSeparator_grammar _ h
    have hslash : ∀ c ∈ core0 ++ [x], c ≠ '/' := by
      intro c hc hcs
      subst hcs
      simp only [grammarTags, List.mem_cons, List.mem_singleton, List.not_mem_nil,
        or_false] at h
      rcases h with h | h | h | h | h | h | h | h | h | h <;> rw [h] at hc <;>
        revert hc <;> decide
    cases w1 with
    | nil =>
      cases hc0 : core0 with
      | nil =>
        subst hc0
        exact ⟨x, w2, by simpa using hi, hslash x (by simp)⟩
      | cons a t =>
        subst hc0
        exact ⟨a, t ++ [x] ++ w2, by simpa using hi, hslash a (by simp)⟩
    | cons a t =>
      refine ⟨a, t ++ (core0 ++ [x]) ++ w2, by simpa using hi, ?_⟩
      intro ha
      have := h1 a (by simp)
      rw [ha] at this
      revert this
      decide

theorem emptyTag_not_open_not_close (x : Str) (h : isTagEmpty file x = .ok true) :
    isTagOpen file x = .ok false ∧ isTagClose x = .ok false := by
  obtain ⟨interior, hx, hmem⟩ := (isTagEmpty_true_iff x).mp h
  obtain ⟨c, t, hct, hc⟩ := interior_head_of_trim_grammar interior hmem
  subst hx
  constructor
  · have e : '<' :: (interior ++ ['/', '>']) = '<' :: ((interior ++ ['/']) ++ ['>']) := by simp
    rw [e, isTagOpen_shaped, if_pos (Or.inl (by simp))]
  · apply isTagClose_not_shaped
    intro mid hb
    rw [hct] at hb
    simp only [List.cons_append, List.cons.injEq, true_and] at hb
    exact hc hb.1

theorem passedOver_not_open_not_close (x : Str) (h : isPassedOver file x = true) :
    isTagOpen file x = .ok false ∧ isTagClose x = .ok false := by
  unfold isPassedOver at h
  rcases Bool.or_eq_true _ _ |>.mp h with h1 | h2
  · exact content_not_open_not_close x h1
  · exact emptyTag_not_open_not_close x (of_decide_eq_true h2)

theorem validateLoop_cons_congr (x : Str) (a b : List Str)
    (h : ∀ tags, validateLoop file a tags = validateLoop file b tags) :
    ∀ tags, validateLoop file (x :: a) tags = validateLoop file (x :: b) tags := by
  intro tags
  have ha := @validateLoop_append file [x] a tags
  have hb := @validateLoop_append file [x] b tags
  have hfun : validateLoop file a = validateLoop file b := funext h
  simp only [List.singleton_append] at ha hb
  rw [ha, hb, hfun]

theorem validateLoop_filter_passedOver (toks : List Str) :
    ∀ tags, validateLoop file toks tags =
      validateLoop file (toks.filter (fun x => !isPassedOver file x)) tags := by
  induction toks with
  | nil => intro tags; rfl
  | cons x rest ih =>
    intro tags
    by_cases hx : isPassedOver file x = true
    · obtain ⟨ho, hc⟩ := passedOver_not_open_not_close x hx
      rw [validateLoop_skip x rest tags ho hc, ih tags]
      simp [List.filter, hx]
    · have hf : (x :: rest).filter (fun x => !isPassedOver file x) =
          x :: rest.filter (fun x => !isPassedOver file x) := by
        simp [List.filter, hx]
      rw [hf]
      exact validateLoop_cons_congr x _ _ ih tags

/-- C14: content tokens (no `<` and no `>`) and empty tags of the vocabulary classify as
neither an open nor a close tag, and the loop of `validateHTML` steps over them, as over
every token that is neither, with the stack unchanged; hence two token sequences that
differ only by content tokens and vocabulary empty tags, inserted or removed at any
positions, give the same stack from every stack and the same result of `validateHTML`
(valid, or the same failure with the same cited token). -/
theorem passed_over_tokens_have_no_effect (a b : List Str)
    (h : a.filter (fun x => !isPassedOver file x) = b.filter (fun x => !isPassedOver file x)) :
    validateHTML file a = validateHTML file b ∧
      (∀ tags, validateLoop file a tags = validateLoop file b tags) ∧
      (∀ x rest tags, isPassedOver file x = true →
        isTagOpen file x = .ok false ∧ isTagClose x = .ok false ∧
          validateLoop file (x :: rest) tags = validateLoop file rest tags) ∧
      (∀ x rest tags, isTagOpen file x = .ok false → isTagClose x = .ok false →
        validateLoop file (x :: rest) tags = validateLoop file rest tags) := by
  have hloop : ∀ tags, validateLoop file a tags = validateLoop file b tags := by
    intro tags
    rw [validateLoop_filter_passedOver a, validateLoop_filter_passedOver b, h]
  refine ⟨?_, hloop, ?_, fun x rest tags ho hc => validateLoop_skip x rest tags ho hc⟩
  · simp only [validateHTML, hloop]
  · intro x rest tags hx
    obtain ⟨ho, hc⟩ := passedOver_not_open_not_close x hx
    exact ⟨ho, hc, validateLoop_skip x rest tags ho hc⟩

/-- The statement of C14 for `<ul>`, `</li>` with and without content and empty tags
around and between them, on the one-line file that holds the longer sequence: the same
mismatched-close failure either way. -/
theorem passed_over_tokens_have_no_effect_witness :
    validateHTML (some ["text<ul><br/>  a</li>< br />".toList])
        ["text".toList, "<ul>".toList, "<br/>".toList, "  a".toList,
          "</li>".toList, "< br />".toList] =
      validateHTML (some ["text<ul><br/>  a</li>< br />".toList])
        ["<ul>".toList, "</li>".toList] :=
  (passed_over_tokens_have_no_effect
    ["text".toList, "<ul>".toList, "<br/>".toList, "  a".toList, "</li>".toList,
      "< br />".toList]
    ["<ul>".toList, "</li>".toList] (by decide)).1

/-! ## C20: the counters of the tokenizer -/

/-- After `k` iterations the cursor is `k` and the running counter is the length of a
span `cur` that ends at the cursor; the span is non-empty as soon as the cursor has
moved. -/
theorem tokenizeStateAfter_span (s : Str) (tokens : List Str) (hlen : s.length < UINT) :
    ∀ k, k ≤ s.length → ∃ (p0 cur rest : Str) (toks : List Str),
      s = p0 ++ cur ++ rest ∧ (p0 ++ cur).length = k ∧ (p0 ++ cur ≠ [] → cur ≠ []) ∧
      tokenizeStateAfter s tokens k =
        .ok { i := k, tokenCount := cur.length, tokens := toks } := by
  intro k
  induction k with
  | zero =>
    intro _
    exact ⟨[], [], s, tokens, by simp, rfl, fun h => absurd rfl h, rfl⟩
  | succ k ih =>
    intro hk
    obtain ⟨p0, cur, rest, toks, hs, hk0, hcur, hst⟩ := ih (by omega)
    have hrest : rest ≠ [] := by
      intro hnil
      have : s.length = k := by rw [hs, hnil, List.append_nil, hk0]
      omega
    obtain ⟨c, rest1, hc⟩ := List.exists_cons_of_ne_nil hrest
    subst hc
    have hlen2 : (p0 ++ cur ++ c :: rest1).length < UINT := by rw [← hs]; exact hlen
    have hp0 : p0 ≠ [] → cur ≠ [] := fun h => hcur (by simp [h])
    have hstep : tokenizeStateAfter s tokens (k + 1) =
        tokenizeStep (p0 ++ cur ++ c :: rest1)
          { i := (p0 ++ cur).length, tokenCount := cur.length, tokens := toks } := by
      rw [tokenizeStateAfter, hst, hk0, ← hs]
      rfl
    by_cases hgt : c = '>'
    · subst hgt
      refine ⟨p0 ++ cur, ['>'], rest1, toks ++ [cur ++ ['>']], by rw [hs]; simp, ?_,
        fun _ => by simp, ?_⟩
      · simp only [List.length_append, List.length_cons, List.length_nil] at hk0 ⊢
        omega
      · rw [hstep, tokenizeStep_close p0 cur rest1 toks hlen2]
        simp only [List.length_append, List.length_cons, List.length_nil] at hk0 ⊢
        rw [hk0]
    · by_cases hlt : c = '<' ∧ cur ≠ []
      · obtain ⟨hc, hne⟩ := hlt
        subst hc
        refine ⟨p0 ++ cur, ['<'], rest1,
          (if keepsContent cur.tail then toks ++ [cur.tail] else toks), by rw [hs]; simp, ?_,
          fun _ => by simp, ?_⟩
        · simp only [List.length_append, List.length_cons, List.length_nil] at hk0 ⊢
          omega
        · rw [hstep, tokenizeStep_open p0 cur rest1 toks hne hlen2]
          simp only [List.length_append, List.length_cons, List.length_nil] at hk0 ⊢
          rw [hk0]
      · have hc2 : c ≠ '<' ∨ (p0 ++ cur) = [] := by
          by_cases hc : c = '<'
          · right
            by_contra hne
            exact hlt ⟨hc, hcur hne⟩
          · exact Or.inl hc
        refine ⟨p0, cur ++ [c], rest1, toks, by rw [hs]; simp, ?_, fun _ => by simp, ?_⟩
        · simp only [List.length_append, List.length_cons, List.length_nil] at hk0 ⊢
          omega
        · rw [hstep, tokenizeStep_other p0 cur rest1 c toks hgt hc2 hlen2]
          simp only [List.length_append, List.length_cons, List.length_nil] at hk0 ⊢
          rw [hk0]

theorem tokenizeStateAfter_cursor (s : Str) (tokens : List Str) (hlen : s.length < UINT)
    (k : Nat) (hk : k ≤ s.length) :
    ∃ st, tokenizeStateAfter s tokens k = .ok st ∧ st.i = k ∧ st.tokenCount ≤ st.i ∧
      (0 < st.i → 1 ≤ st.tokenCount) := by
  obtain ⟨p0, cur, rest, toks, _, hk0, hcur, hst⟩ := tokenizeStateAfter_span s tokens hlen k hk
  refine ⟨_, hst, rfl, ?_, ?_⟩
  · simp only [List.length_append] at hk0 ⊢
    omega
  · intro hpos
    have hne : p0 ++ cur ≠ [] := by
      intro h
      rw [h] at hk0
      simp only [List.length_nil] at hk0
      simp only at hpos
      omega
    exact List.length_pos.mpr (hcur hne)

/-- The loop with iteration bound `n`, entered in the state reached after `k` iterations:
it runs out of iterations when `n` is less than the `length - k` iterations still due,
and otherwise stops in the state reached after `length` iterations. -/
theorem tokenizeLoop_from_state (s : Str) (tokens : List Str) (hlen : s.length < UINT) :
    ∀ (n k : Nat) (st : TokState), k ≤ s.length → tokenizeStateAfter s tokens k = .ok st →
      tokenizeLoop s n st =
        if n < s.length - k then .error .fuel else tokenizeStateAfter s tokens s.length := by
  intro n
  induction n with
  | zero =>
    intro k st hk hst
    obtain ⟨st0, hst0, hi, _, _⟩ := tokenizeStateAfter_cursor s tokens hlen k hk
    rw [hst] at hst0
    injection hst0 with hst0
    subst hst0
    rw [tokenizeLoop]
    by_cases hlt : k < s.length
    · rw [if_pos (by rw [hi]; exact hlt), if_pos (by omega)]
    · have hkeq : k = s.length := by omega
      rw [if_neg (by rw [hi]; exact hlt), if_neg (by omega), ← hkeq, hst]
  | succ n ih =>
    intro k st hk hst
    obtain ⟨st0, hst0, hi, _, _⟩ := tokenizeStateAfter_cursor s tokens hlen k hk
    rw [hst] at hst0
    injection hst0 with hst0
    subst hst0
    rw [tokenizeLoop]
    by_cases hlt : k < s.length
    · obtain ⟨st1, hst1, _, _, _⟩ := tokenizeStateAfter_cursor s tokens hlen (k + 1) hlt
      have hstep : tokenizeStep s st = .ok st1 := by
        rw [tokenizeStateAfter, hst] at hst1
        exact hst1
      rw [if_pos (by rw [hi]; exact hlt)]
      simp only [bind, Except.bind, hstep]
      rw [ih (k + 1) st1 hlt hst1]
      by_cases hn : n < s.length - (k + 1)
      · rw [if_pos hn, if_pos (by omega)]
      · rw [if_neg hn, if_neg (by omega)]
    · have hkeq : k = s.length := by omega
      rw [if_neg (by rw [hi]; exact hlt), if_neg (by omega), ← hkeq, hst]

theorem wrapText_length : ('a' :: '>' :: List.replicate UINT 'a').length = UINT + 2 := by
  rw [List.length_cons, List.length_cons, List.length_replicate]

theorem wrapText_getD (m : Nat) (hm : m < UINT) :
    ('a' :: '>' :: List.replicate UINT 'a').getD (m + 2) (Char.ofNat 0) = 'a' := by
  have e : ('a' :: '>' :: List.replicate UINT 'a').getD (m + 2) (Char.ofNat 0) =
      (List.replicate UINT 'a').getD m (Char.ofNat 0) := by
    rw [List.getD_cons_succ, List.getD_cons_succ]
  rw [e, getD_replicate_lt _ _ _ _ hm]

theorem wrapText_state_two :
    tokenizeStateAfter ('a' :: '>' :: List.replicate UINT 'a') [] 2 =
      .ok { i := 2, tokenCount := 1, tokens := [['a', '>']] } := by
  have e0 : (0 + 1) % UINT = 1 := by decide
  have h0 : tokenizeStateAfter ('a' :: '>' :: List.replicate UINT 'a') [] 0 =
      .ok { i := 0, tokenCount := 0, tokens := [] } := by
    rw [tokenizeStateAfter]
  have h1 : tokenizeStateAfter ('a' :: '>' :: List.replicate UINT 'a') [] (0 + 1) =
      .ok { i := 1, tokenCount := 1, tokens := [] } := by
    rw [tokenizeStateAfter_succ _ _ _ _ h0,
      tokenizeStep_plain _ _ _ _ (Nat.zero_le _)
        (by rw [List.getD_cons_zero]; decide)
        (by rw [List.getD_cons_zero]; intro hc; exact absurd hc (by decide)), e0]
  have e1 : (1 + UINT - 1) % UINT = 0 := by decide
  have e2 : (1 + 1) % UINT = 2 := by decide
  have hs : substr ('a' :: '>' :: List.replicate UINT 'a') (((1 + UINT - 1) % UINT : Nat) : Int)
      (((1 + 1) % UINT : Nat) : Int) = .ok ['a', '>'] := by
    rw [e1, e2, substr_nat _ _ _ (Nat.zero_le _), List.drop_zero, List.take_succ_cons,
      List.take_succ_cons, List.take_zero]
  have h2 := tokenizeStateAfter_succ _ _ _ _ h1
  rw [tokenizeStep_gt _ _ _ _ _ (by rw [wrapText_length]; omega)
    (by rw [List.getD_cons_succ, List.getD_cons_zero]) hs, e2, e0, List.nil_append] at h2
  exact h2

/-- On the text `a>` followed by 2^32 times `a` the cursor and the running counter differ
by one from the third iteration on. -/
theorem wrapText_state (m : Nat) (hm : m + 2 < UINT) :
    tokenizeStateAfter ('a' :: '>' :: List.replicate UINT 'a') [] (m + 2) =
      .ok { i := m + 2, tokenCount := m + 1, tokens := [['a', '>']] } := by
  induction m with
  | zero => exact wrapText_state_two
  | succ m ih =>
    have h := tokenizeStateAfter_succ _ _ _ _ (ih (by omega))
    rw [tokenizeStep_plain _ _ _ _ (by rw [wrapText_length]; omega)
      (by rw [wrapText_getD m (by omega)]; decide)
      (by rw [wrapText_getD m (by omega)]; intro hc; exact absurd hc (by decide)),
      Nat.mod_eq_of_lt (show m + 2 + 1 < UINT by omega),
      Nat.mod_eq_of_lt (show m + 1 + 1 < UINT by omega)] at h
    exact h

/-- The claim of C20 fails for texts of 2^32 characters and more. On 2^32 times `a` the
loop of `tokenizeHTML` does not end, whatever the number of iterations granted: the 32-bit
cursor wraps to 0 before it reaches the length. On `a>` followed by 2^32 times `a`
(2^32 + 2 characters) iteration number 2^32 starts with `i = 0` and
`tokenCount = 2^32 - 1`, so `tokenCount ≤ i` does not hold there and `i - tokenCount`
wraps around. -/
theorem tokenizeHTML_counters_wrap :
    (∀ fuel, tokenizeLoop (List.replicate UINT 'a') fuel
        { i := 0, tokenCount := 0, tokens := [] } = .error .fuel) ∧
      tokenizeHTML (List.replicate UINT 'a') [] = .error .fuel ∧
      ('a' :: '>' :: List.replicate UINT 'a').length = UINT + 2 ∧
      tokenizeStateAfter ('a' :: '>' :: List.replicate UINT 'a') [] UINT =
        .ok { i := 0, tokenCount := 4294967295, tokens := [['a', '>']] } := by
  have hl : UINT ≤ (List.replicate UINT 'a').length := by
    rw [List.length_replicate]
  refine ⟨fun fuel => tokenizeLoop_never_returns _ hl replicate_plain fuel _ _ _
      (show 0 < UINT by decide),
    tokenizeHTML_never_returns _ _ hl replicate_plain, wrapText_length, ?_⟩
  have hU : UINT = 4294967293 + 2 + 1 := by decide
  have hst := wrapText_state 4294967293 (by rw [hU]; omega)
  have h := tokenizeStateAfter_succ _ _ _ _ hst
  have e1 : (4294967293 + 2 + 1) % UINT = 0 := by decide
  have e2 : (4294967293 + 1 + 1) % UINT = 4294967295 := by decide
  rw [tokenizeStep_plain _ _ _ _ (by rw [wrapText_length]; omega)
    (by rw [wrapText_getD _ (by rw [hU]; omega)]; decide)
    (by rw [wrapText_getD _ (by rw [hU]; omega)]; intro hc; exact absurd hc (by decide)),
    e1, e2] at h
  exact (congrArg (tokenizeStateAfter ('a' :: '>' :: List.replicate UINT 'a') []) hU).trans h

/-- C20, amended to texts shorter than 2^32 characters (the range of the `unsigned int`
cursor): for such a text, at the start of every iteration of the loop of `tokenizeHTML` the cursor `i` is
the number of iterations done, `tokenCount ≤ i`, and `tokenCount ≥ 1` when `i > 0`.
Hence in an iteration that runs (`k < length`) the 32-bit values of `i - tokenCount`,
`i - tokenCount + 1` and, when `i > 0`, `tokenCount - 1` are the mathematical ones, and
both start positions lie inside the text; the loop does not stop within fewer than
`length` iterations and stops after `length` of them, and `tokenizeHTML` returns. -/
theorem tokenizeHTML_counter_invariant (s : Str) (tokens : List Str)
    (hlen : s.length < UINT) :
    (∀ k, k ≤ s.length → ∃ st, tokenizeStateAfter s tokens k = .ok st ∧ st.i = k ∧
        st.tokenCount ≤ st.i ∧ (0 < st.i → 1 ≤ st.tokenCount)) ∧
      (∀ k st, k < s.length → tokenizeStateAfter s tokens k = .ok st →
        (((st.i + UINT - st.tokenCount) % UINT : Nat) : Int) =
            (st.i : Int) - (st.tokenCount : Int) ∧
          ((((st.i + UINT - st.tokenCount) % UINT + 1) % UINT : Nat) : Int) =
            (st.i : Int) - (st.tokenCount : Int) + 1 ∧
          (0 < st.i → (((st.tokenCount + UINT - 1) % UINT : Nat) : Int) =
            (st.tokenCount : Int) - 1) ∧
          (0 : Int) ≤ (st.i : Int) - (st.tokenCount : Int) ∧
          (st.i : Int) - (st.tokenCount : Int) ≤ (s.length : Int) ∧
          (st.i : Int) - (st.tokenCount : Int) + 1 ≤ (s.length : Int)) ∧
      (∀ n, n < s.length →
        tokenizeLoop s n { i := 0, tokenCount := 0, tokens := tokens } = .error .fuel) ∧
      (∃ st, tokenizeLoop s s.length { i := 0, tokenCount := 0, tokens := tokens } = .ok st ∧
        tokenizeStateAfter s tokens s.length = .ok st ∧ st.i = s.length ∧
        tokenizeHTML s tokens = .ok st.tokens) := by
  refine ⟨fun k hk => tokenizeStateAfter_cursor s tokens hlen k hk, ?_, ?_, ?_⟩
  · intro k st hk hst
    obtain ⟨st0, hst0, hi, hle, hpos⟩ :=
      tokenizeStateAfter_cursor s tokens hlen k (Nat.le_of_lt hk)
    rw [hst] at hst0
    injection hst0 with hst0
    subst hst0
    have hU : UINT = 4294967296 := rfl
    rw [hU] at hlen ⊢
    refine ⟨by omega, by omega, fun h => ?_, by omega, by omega, by omega⟩
    have := hpos h
    omega
  · intro n hn
    have h := tokenizeLoop_from_state s tokens hlen n 0 _ (Nat.zero_le _) rfl
    rw [h, if_pos (by omega)]
  · obtain ⟨st, hst, hi, _, _⟩ :=
      tokenizeStateAfter_cursor s tokens hlen s.length (Nat.le_refl _)
    have h := tokenizeLoop_from_state s tokens hlen s.length 0 _ (Nat.zero_le _) rfl
    rw [if_neg (by omega), hst] at h
    refine ⟨st, h, hst, hi, ?_⟩
    simp [tokenizeHTML, h, bind, Except.bind, pure, Except.pure]

/-- The amended statement of C20 at the text `ab<p> x</p>`. -/
theorem tokenizeHTML_counter_invariant_witness :
    (∀ n, n < "ab<p> x</p>".toList.length →
        tokenizeLoop "ab<p> x</p>".toList n { i := 0, tokenCount := 0, tokens := [] } =
          .error .fuel) ∧
      ∃ st, tokenizeLoop "ab<p> x</p>".toList "ab<p> x</p>".toList.length
          { i := 0, tokenCount := 0, tokens := [] } = .ok st ∧
        tokenizeStateAfter "ab<p> x</p>".toList [] "ab<p> x</p>".toList.length = .ok st ∧
        st.i = "ab<p> x</p>".toList.length ∧
        tokenizeHTML "ab<p> x</p>".toList [] = .ok st.tokens :=
  ⟨(tokenizeHTML_counter_invariant "ab<p> x</p>".toList [] (by decide)).2.2.1,
    (tokenizeHTML_counter_invariant "ab<p> x</p>".toList [] (by decide)).2.2.2⟩

/-! ## C21: text after the last delimiter -/

theorem scan_trailing_content (r : Str) (hr : IsContentRun r) :
    ∀ (s cur : Str) (toks : List Str), scan (s ++ r) cur toks = scan s cur toks := by
  intro s
  induction s with
  | nil =>
    intro cur toks
    have h := scan_content r hr [] cur toks
    rw [List.append_nil] at h
    rw [List.nil_append, h]
    rfl
  | cons c s ih =>
    intro cur toks
    rw [List.cons_append, scan, scan]
    by_cases hgt : c = '>'
    · rw [if_pos hgt, if_pos hgt, ih]
    · rw [if_neg hgt, if_neg hgt]
      by_cases hlt : c = '<' ∧ cur ≠ []
      · rw [if_pos hlt, if_pos hlt, ih]
      · rw [if_neg hlt, if_neg hlt, ih]

/-- The claim of C21 fails when the run after the text has 2^32 characters or more: 2^32
times `a` is a run without `<` and `>`; `tokenizeHTML` returns no tokens for the empty
text, and for the empty text followed by that run it does not return (the 32-bit cursor
wraps to 0 before it reaches the length), whatever the number of iterations granted. -/
theorem tokenizeHTML_long_trailing_text_never_returns :
    IsContentRun (List.replicate UINT 'a') ∧
      tokenizeHTML [] [] = .ok [] ∧
      tokenizeHTML ([] ++ List.replicate UINT 'a') [] = .error .fuel ∧
      ∀ fuel, tokenizeLoop ([] ++ List.replicate UINT 'a') fuel
        { i := 0, tokenCount := 0, tokens := [] } = .error .fuel := by
  have hl : UINT ≤ (List.replicate UINT 'a').length := by
    rw [List.length_replicate]
  refine ⟨?_, rfl, ?_, ?_⟩
  · intro x hx
    rw [List.eq_of_mem_replicate hx]
    exact ⟨by decide, by decide⟩
  · rw [List.nil_append]
    exact tokenizeHTML_never_returns _ _ hl replicate_plain
  · intro fuel
    rw [List.nil_append]
    exact tokenizeLoop_never_returns _ hl replicate_plain fuel _ _ _
      (show 0 < UINT by decide)

/-- C21, amended to texts shorter than 2^32 characters (the range of the `unsigned int`
cursor): for a text `s` followed by a run `r` without `<` and `>`, together shorter than
2^32 characters, `tokenizeHTML` appends
exactly the tokens it appends for `s` alone; a text without `<` and `>` appends no token;
so the run after the text does not change the result of validation. -/
theorem tokenizeHTML_trailing_text_dropped (s r : Str) (out : List Str)
    (hr : IsContentRun r) (hlen : (s ++ r).length < UINT) :
    tokenizeHTML (s ++ r) out = tokenizeHTML s out ∧
      tokenizeHTML r out = .ok out ∧
      validateContents file (s ++ r) = validateContents file s := by
  have hs : s.length < UINT := by
    simp only [List.length_append] at hlen
    omega
  have hrl : r.length < UINT := by
    simp only [List.length_append] at hlen
    omega
  have h1 : ∀ toks, tokenizeHTML (s ++ r) toks = tokenizeHTML s toks := by
    intro toks
    rw [tokenizeHTML_eq_scan _ _ hlen, tokenizeHTML_eq_scan _ _ hs,
      scan_trailing_content r hr]
  refine ⟨h1 out, ?_, ?_⟩
  · have h := scan_trailing_content r hr [] [] out
    rw [List.nil_append] at h
    rw [tokenizeHTML_eq_scan _ _ hrl, h]
    rfl
  · simp only [validateContents, h1]

/-- The amended statement of C21 at `<ul></ul>` followed by ` trailing text`, with one
token already in the output vector. -/
theorem tokenizeHTML_trailing_text_dropped_witness :
    tokenizeHTML ("<ul></ul>".toList ++ " trailing text".toList) ["<p>".toList] =
        tokenizeHTML "<ul></ul>".toList ["<p>".toList] ∧
      tokenizeHTML " trailing text".toList ["<p>".toList] = .ok ["<p>".toList] ∧
      validateContents (some ["<ul></ul> trailing text".toList])
          ("<ul></ul>".toList ++ " trailing text".toList) =
        validateContents (some ["<ul></ul> trailing text".toList]) "<ul></ul>".toList :=
  tokenizeHTML_trailing_text_dropped "<ul></ul>".toList " trailing text".toList
    ["<p>".toList] (by unfold IsContentRun; decide) (by decide)

end HtmlValidator
